import Mathlib

/-!
Shallow embedding of the `curtisqt30/471-project` FTP service, translated from the
Python sources `src/server/main.py`, `src/server/handlers.py` and
`src/client/main.py`.

Conventions of the embedding:
 - Byte sequences are `List Nat` with every element below 256.
 - Python `str` values are Lean `String` or `List Char` (Unicode scalar values;
   Python strings containing lone surrogates are outside the embedded domain).
 - The filesystem is an explicit value (`FS`): an association list from resolved
   absolute paths (lists of path segments) to file contents, plus a list of
   directory paths.  Filesystem faults other than the ones a claim injects are
   not modelled.
 - Fallible operations return `Option` or a status pair, mirroring the Python
   try and except structure.
-/

/-! ## Python string primitives -/

/-- Whitespace as recognised by Python `str.strip()` and `str.split()` with no
separator, restricted to code points below 128: tab, newline, vertical tab,
form feed, carriage return, the file and record separators 28 to 31, and space. -/
def isPySpace (c : Char) : Bool :=
  c = ' ' || c = '\t' || c = '\n' || c = '\r' ||
    c.toNat = 11 || c.toNat = 12 || c.toNat = 28 || c.toNat = 29 ||
    c.toNat = 30 || c.toNat = 31

/-- Negation of `isPySpace`, the token characters of a command line. -/
def notPySpace (c : Char) : Bool := !isPySpace c

/-- Python `str.strip()`: drop Python whitespace from both ends. -/
def pyStrip (cs : List Char) : List Char :=
  (((cs.dropWhile isPySpace).reverse).dropWhile isPySpace).reverse

/-- Python `str.upper()` on one character, for the ASCII range: lowercase
letters map to uppercase, everything else is unchanged.  (Python's `upper` also
maps some non-ASCII characters, e.g. a sharp s expands to two letters; those
inputs are outside the domain where this embedding is exact, which is why the
theorems about command parsing carry an ASCII hypothesis.) -/
def pyUpperChar (c : Char) : Char :=
  if 'a' ≤ c ∧ c ≤ 'z' then Char.ofNat (c.toNat - 32) else c

/-- First whitespace-delimited token of a line: skip leading Python whitespace,
then take characters up to the next whitespace. -/
def firstTok (cs : List Char) : List Char :=
  (cs.dropWhile isPySpace).takeWhile notPySpace

/-- Python `str.split(maxsplit=1)` shaped for the two call sites: the first
token and the remainder after the whitespace run that follows it. -/
def splitFirstTok (cs : List Char) : List Char × List Char :=
  let t := cs.dropWhile isPySpace
  (t.takeWhile notPySpace, (t.dropWhile notPySpace).dropWhile isPySpace)

/-- `CommandParser.parse` (src/server/handlers.py lines 126-133):
`command_str.strip().split(maxsplit=1)`, the verb upper-cased, the argument the
remainder (empty when absent).  `FTPProtocol.parse_command` in
src/server/main.py repeats the same logic on the decoded text. -/
def CommandParser.parse (cs : List Char) : List Char × List Char :=
  let p := splitFirstTok (pyStrip cs)
  (p.1.map pyUpperChar, p.2)

/-- `CommandParser.VALID_COMMANDS` (src/server/handlers.py line 124). -/
def CommandParser.VALID_COMMANDS : List String :=
  ["LS", "GET", "PUT", "EXIT", "HELP", "CD", "PWD", "MKDIR", "DELETE"]

/-- `CommandParser.validate` (src/server/handlers.py lines 135-138):
membership of the verb in `VALID_COMMANDS`. -/
def CommandParser.validate (command : String) : Bool :=
  CommandParser.VALID_COMMANDS.contains command

/-- `CommandParser.requires_argument` (src/server/handlers.py lines 140-143). -/
def CommandParser.requires_argument (command : String) : Bool :=
  (["GET", "PUT", "CD", "MKDIR", "DELETE"] : List String).contains command

/-! ## UTF-8, as Python's strict `bytes.decode('utf-8')` / `str.encode('utf-8')` -/

/-- UTF-8 encoding of one Unicode scalar value (Python `str.encode('utf-8')`
acting on one character). -/
def utf8EncodeChar (c : Char) : List Nat :=
  let n := c.toNat
  if n < 0x80 then [n]
  else if n < 0x800 then [0xC0 + n / 64, 0x80 + n % 64]
  else if n < 0x10000 then
    [0xE0 + n / 4096, 0x80 + (n / 64) % 64, 0x80 + n % 64]
  else
    [0xF0 + n / 262144, 0x80 + (n / 4096) % 64, 0x80 + (n / 64) % 64, 0x80 + n % 64]

/-- UTF-8 encoding of a character list. -/
def utf8EncodeList (cs : List Char) : List Nat :=
  cs.foldr (fun c acc => utf8EncodeChar c ++ acc) []

/-- UTF-8 encoding of a string, i.e. Python `str.encode('utf-8')`. -/
def strBytes (s : String) : List Nat := utf8EncodeList s.data

/-- One step of strict UTF-8 decoding, i.e. Python `bytes.decode('utf-8')` at
one character: reads a lead byte and its continuation bytes, rejecting
continuation bytes in lead position, the invalid leads 0xC0/0xC1 and above
0xF4, overlong encodings, surrogate code points and truncated sequences.
`none` is where Python raises `UnicodeDecodeError`. -/
def utf8DecodeStep (b : Nat) (bs : List Nat) : Option (Char × List Nat) :=
  if b < 0x80 then some (Char.ofNat b, bs)
  else if b < 0xC2 then none
  else if b ≤ 0xDF then
    match bs with
    | b1 :: bs1 =>
      if 0x80 ≤ b1 ∧ b1 ≤ 0xBF then
        some (Char.ofNat ((b - 0xC0) * 64 + (b1 - 0x80)), bs1)
      else none
    | [] => none
  else if b ≤ 0xEF then
    match bs with
    | b1 :: b2 :: bs2 =>
      if (0x80 ≤ b1 ∧ b1 ≤ 0xBF) ∧ (0x80 ≤ b2 ∧ b2 ≤ 0xBF) ∧
          (b = 0xE0 → 0xA0 ≤ b1) ∧ (b = 0xED → b1 ≤ 0x9F) then
        some (Char.ofNat ((b - 0xE0) * 4096 + (b1 - 0x80) * 64 + (b2 - 0x80)), bs2)
      else none
    | _ => none
  else if b ≤ 0xF4 then
    match bs with
    | b1 :: b2 :: b3 :: bs3 =>
      if (0x80 ≤ b1 ∧ b1 ≤ 0xBF) ∧ (0x80 ≤ b2 ∧ b2 ≤ 0xBF) ∧
          (0x80 ≤ b3 ∧ b3 ≤ 0xBF) ∧ (b = 0xF0 → 0x90 ≤ b1) ∧ (b = 0xF4 → b1 ≤ 0x8F) then
        some
          (Char.ofNat
            ((b - 0xF0) * 262144 + (b1 - 0x80) * 4096 + (b2 - 0x80) * 64 + (b3 - 0x80)),
          bs3)
      else none
    | _ => none
  else none

/-- Decoding loop: one `utf8DecodeStep` per character.  The fuel argument only
makes the recursion structural; every step consumes at least one byte, so the
input length (as supplied by `utf8DecodeList`) is always sufficient and the
loop never fails for lack of fuel. -/
def utf8DecodeGo : Nat → List Nat → Option (List Char)
  | _, [] => some []
  | 0, _ :: _ => none
  | fuel + 1, b :: bs =>
    match utf8DecodeStep b bs with
    | some (c, rest) => (utf8DecodeGo fuel rest).map (c :: ·)
    | none => none

def utf8DecodeList (bs : List Nat) : Option (List Char) :=
  utf8DecodeGo bs.length bs

/-- `FTPProtocol.parse_command` (src/server/main.py lines 35-45): decode the
received bytes as UTF-8, strip, split off the verb, upper-case it; any
exception (in this model: a UTF-8 decode failure) yields the empty verb and
argument instead of propagating. -/
def FTPProtocol.parse_command (bs : List Nat) : List Char × List Char :=
  match utf8DecodeList bs with
  | none => ([], [])
  | some text =>
    let p := splitFirstTok (pyStrip text)
    (p.1.map pyUpperChar, p.2)

/-! ## Paths and the filesystem model -/

/-- Split a character list on `'/'`, keeping empty segments, as POSIX path
parsing does before resolution. -/
def splitSlash : List Char → List (List Char)
  | [] => [[]]
  | '/' :: rest => [] :: splitSlash rest
  | c :: rest =>
    match splitSlash rest with
    | s :: ss => (c :: s) :: ss
    | [] => [[c]]

/-- One step of POSIX path resolution: empty and `.` segments are skipped,
`..` removes the last segment (staying at the root when already there), any
other segment is appended. -/
def resolveSeg (acc : List String) (seg : String) : List String :=
  if seg = "" ∨ seg = "." then acc
  else if seg = ".." then acc.dropLast
  else acc ++ [seg]

/-- Resolution of `Path(base) / name` against an absolute base (a segment
list): Python's `pathlib` keeps only `name` when it is absolute, otherwise
joins, and the operating system then resolves `.` and `..` segments when the
path is used. -/
def resolvePath (base : List String) (name : String) : List String :=
  let segs := (splitSlash name.data).map String.mk
  let start : List String :=
    match name.data with
    | '/' :: _ => []
    | _ => base
  segs.foldl resolveSeg start

/-- The server's data root: `DATA_DIR = Path("server_data")` resolved against
the process working directory `cwd`. -/
def dataRoot (cwd : List String) : List String := cwd ++ ["server_data"]

/-- A resolved name escapes the data root when the root's segments are not a
prefix of the resolved path. -/
def escapesRoot (cwd : List String) (name : String) : Bool :=
  !(dataRoot cwd).isPrefixOf (resolvePath (dataRoot cwd) name)

/-- Filesystem model: regular files as an association list from resolved
absolute path to byte content, and a list of directory paths. -/
structure FS where
  files : List (List String × List Nat)
  dirs : List (List String)

/-- Content of the regular file at `p`, when present. -/
def FS.lookupFile (fs : FS) (p : List String) : Option (List Nat) :=
  (fs.files.find? (fun e => e.1 == p)).map (·.2)

/-- Create or overwrite the regular file at `p`. -/
def FS.setFile (fs : FS) (p : List String) (bs : List Nat) : FS :=
  { fs with files := (p, bs) :: fs.files.filter (fun e => !(e.1 == p)) }

/-- Names of the regular files that are direct children of directory `d`
(the `f.is_file()` filter of `DATA_DIR.iterdir()`), in store order. -/
def FS.childFiles (fs : FS) (d : List String) : List String :=
  fs.files.filterMap (fun e =>
    if e.1.take d.length == d then
      match e.1.drop d.length with
      | [n] => some n
      | _ => none
    else none)

/-! ## File store adapter (`FileTransferHandler`, src/server/handlers.py) -/

/-- `FileTransferHandler.read_file` (src/server/handlers.py lines 53-64): the
name is joined to the data directory with no containment check; a missing file
makes `stat()` raise, which the `except` turns into `(False, str(e).encode())`
(the exception text itself is not modelled); an oversized file yields
`(False, b"File too large")`; otherwise the content is read and returned. -/
def FileTransferHandler.read_file (dataDir : List String) (fs : FS)
    (filename : String) (maxSize : Nat) : Bool × List Nat :=
  let p := resolvePath dataDir filename
  match fs.lookupFile p with
  | none => (false, strBytes "<exception>")
  | some content =>
    if content.length > maxSize then (false, strBytes "File too large")
    else (true, content)

/-- `FileTransferHandler.write_file` (src/server/handlers.py lines 66-74): the
name is joined to the data directory with no containment check and
`write_bytes` stores the content at the resolved path directly (no temporary
file, no rename); in the fault-free model the write always succeeds. -/
def FileTransferHandler.write_file (dataDir : List String) (fs : FS)
    (filename : String) (content : List Nat) : FS × (Bool × String) :=
  let p := resolvePath dataDir filename
  (fs.setFile p content, (true, "File " ++ filename ++ " saved successfully"))

/-- `open(path, 'wb')` as performed by `Path.write_bytes`: the target is
truncated to empty the moment it is opened. -/
def pyOpenTruncate (fs : FS) (p : List String) : FS := fs.setFile p []

/-- Appending bytes to an open file. -/
def pyAppendBytes (fs : FS) (p : List String) (bs : List Nat) : FS :=
  fs.setFile p ((fs.lookupFile p).getD [] ++ bs)

/-- `Path.write_bytes(content)` interrupted after `k` bytes: `write_bytes`
opens the target itself with truncation and writes into it, so a failure after
`k` bytes leaves the target holding the first `k` bytes of the new content.
This is the fault-injection model for `FileTransferHandler.write_file` and the
PUT branch of `handle_client`, none of which use a temporary name. -/
def write_file_interrupted (dataDir : List String) (fs : FS)
    (filename : String) (content : List Nat) (k : Nat) : FS :=
  let p := resolvePath dataDir filename
  pyAppendBytes (pyOpenTruncate fs p) p (content.take k)

/-! ## Chunked transfer engine (receive path) -/

/-- A transfer frame of the chunked protocol of spec section 4.4. -/
inductive Frame where
  | chunk (index : Nat) (payload : List Nat)
  | fileEnd
deriving DecidableEq

/-- Result of the receive path; failures carry the accumulator as it stood
when the failure was detected. -/
inductive RecvResult where
  | ok (data : List Nat)
  | violation (accSoFar : List Nat)
  | incomplete (accSoFar : List Nat)
  | sizeMismatch (accSoFar : List Nat)
deriving DecidableEq

/-- Modelled from the spec: `BinaryTransferHandler.receive_file_chunked`
(src/server/handlers.py lines 88-93) is an unimplemented stub (`pass`, marked
"implemented in Part 2"), so the receive path is taken from spec section 4.4:
read `FILE_CHUNK` frames, verify each index equals the previous plus one
(starting at 0), append payload bytes to the accumulator, stop at `FILE_END`,
and verify the accumulated size when a size hint was provided.  A chunk whose
index is not the expected one raises `ProtocolViolation` before its bytes are
appended. -/
def receive_file_chunked (sizeHint : Option Nat) :
    Nat → List Nat → List Frame → RecvResult
  | _, acc, [] => .incomplete acc
  | expected, acc, .chunk i p :: rest =>
    if i = expected then receive_file_chunked sizeHint (expected + 1) (acc ++ p) rest
    else .violation acc
  | _, acc, .fileEnd :: _ =>
    match sizeHint with
    | none => .ok acc
    | some n => if acc.length = n then .ok acc else .sizeMismatch acc

/-- The frame sequence for the payload list `ps`, indices counted from
`start`. -/
def chunksFrom (start : Nat) : List (List Nat) → List Frame
  | [] => []
  | p :: ps => .chunk start p :: chunksFrom (start + 1) ps

/-! ## JSON values and Python's `json.dumps` (default options, `ensure_ascii=True`) -/

/-- The JSON value domain exchanged by this program: strings, integers,
booleans, null, arrays and objects.  Objects are key-value lists in insertion
order, which is the order `json.dumps` writes and the textual order
`json.loads` reads; numbers are integers, since the program never produces a
float. -/
inductive Json where
  | str : String → Json
  | int : Int → Json
  | bool : Bool → Json
  | null : Json
  | arr : List Json → Json
  | obj : List (String × Json) → Json

mutual
/-- Structural equality of JSON values, Python `==` on the decoded objects. -/
def Json.beq : Json → Json → Bool
  | .str a, .str b => a == b
  | .int a, .int b => a == b
  | .bool a, .bool b => a == b
  | .null, .null => true
  | .arr a, .arr b => Json.beqList a b
  | .obj a, .obj b => Json.beqMembers a b
  | _, _ => false

/-- Elementwise equality of JSON arrays. -/
def Json.beqList : List Json → List Json → Bool
  | [], [] => true
  | x :: xs, y :: ys => Json.beq x y && Json.beqList xs ys
  | _, _ => false

/-- Memberwise equality of JSON objects (order-sensitive, matching the
insertion order both sides carry). -/
def Json.beqMembers : List (String × Json) → List (String × Json) → Bool
  | [], [] => true
  | (k1, v1) :: xs, (k2, v2) :: ys => k1 == k2 && Json.beq v1 v2 && Json.beqMembers xs ys
  | _, _ => false
end

instance : BEq Json := ⟨Json.beq⟩

/-- Hexadecimal digit character, lowercase, as `json.dumps` writes in
`\uXXXX` escapes. -/
def hexDigitChar (n : Nat) : Char :=
  if n < 10 then Char.ofNat (48 + n) else Char.ofNat (87 + n)

/-- Four lowercase hex digits of `n`, most significant first. -/
def toHex4 (n : Nat) : List Char :=
  [hexDigitChar (n / 4096 % 16), hexDigitChar (n / 256 % 16),
   hexDigitChar (n / 16 % 16), hexDigitChar (n % 16)]

/-- Python's `json.dumps` escaping of one character with `ensure_ascii=True`:
quote and backslash are backslash-escaped, the control characters with short
escapes use them, every other character outside the printable ASCII range
0x20 to 0x7E becomes `\uXXXX` (a surrogate pair for code points above
0xFFFF), and printable ASCII passes through. -/
def escapeChar (c : Char) : List Char :=
  if c = '"' then ['\\', '"']
  else if c = '\\' then ['\\', '\\']
  else if c = '\n' then ['\\', 'n']
  else if c = '\t' then ['\\', 't']
  else if c = '\r' then ['\\', 'r']
  else if c.toNat = 8 then ['\\', 'b']
  else if c.toNat = 12 then ['\\', 'f']
  else if 0x20 ≤ c.toNat ∧ c.toNat ≤ 0x7E then [c]
  else if c.toNat < 0x10000 then '\\' :: 'u' :: toHex4 c.toNat
  else
    ('\\' :: 'u' :: toHex4 (0xD800 + (c.toNat - 0x10000) / 1024)) ++
    ('\\' :: 'u' :: toHex4 (0xDC00 + (c.toNat - 0x10000) % 1024))

/-- Escape every character of a string body. -/
def escapeList (cs : List Char) : List Char :=
  cs.foldr (fun c acc => escapeChar c ++ acc) []

/-- Decimal digits of a natural number (`str(n)` for nonnegative `n`), with a
fuel argument so the definition is structural and kernel-reducible; `n` itself
is always sufficient fuel. -/
def natCharsAux : Nat → Nat → List Char
  | 0, _ => []
  | fuel + 1, n =>
    if n < 10 then [Char.ofNat (48 + n)]
    else natCharsAux fuel (n / 10) ++ [Char.ofNat (48 + n % 10)]

/-- Decimal digits of a natural number, most significant first. -/
def natChars (n : Nat) : List Char := natCharsAux (n + 1) n

/-- Python `str(i)` for an integer: optional minus sign and decimal digits. -/
def intChars (i : Int) : List Char :=
  if i < 0 then '-' :: natChars i.natAbs else natChars i.toNat

mutual
/-- `json.dumps` with its default options, producing the character sequence of
the serialized value: item separator a comma and a space, key separator a
colon and a space, `ensure_ascii` escaping for strings. -/
def dumpChars : Json → List Char
  | .str s => '"' :: (escapeList s.data ++ ['"'])
  | .int i => intChars i
  | .bool b => if b then ['t', 'r', 'u', 'e'] else ['f', 'a', 'l', 's', 'e']
  | .null => ['n', 'u', 'l', 'l']
  | .arr l => '[' :: (dumpElems l ++ [']'])
  | .obj l => '{' :: (dumpMembers l ++ ['}'])

/-- Serialized array elements, separated by a comma and a space. -/
def dumpElems : List Json → List Char
  | [] => []
  | e :: es => dumpChars e ++ dumpElemsTail es

/-- Continuation of `dumpElems` after the first element. -/
def dumpElemsTail : List Json → List Char
  | [] => []
  | e :: es => ',' :: ' ' :: (dumpChars e ++ dumpElemsTail es)

/-- Serialized object members: quoted escaped key, a colon and a space, the
value; members separated by a comma and a space. -/
def dumpMembers : List (String × Json) → List Char
  | [] => []
  | (k, v) :: ms =>
    '"' :: (escapeList k.data ++ '"' :: ':' :: ' ' :: (dumpChars v ++ dumpMembersTail ms))

/-- Continuation of `dumpMembers` after the first member. -/
def dumpMembersTail : List (String × Json) → List Char
  | [] => []
  | (k, v) :: ms =>
    ',' :: ' ' :: '"' ::
      (escapeList k.data ++ '"' :: ':' :: ' ' :: (dumpChars v ++ dumpMembersTail ms))
end

/-! ## Python's `json.loads` -/

/-- JSON whitespace skipped by the decoder (the scanner's whitespace regex):
space, tab, newline, carriage return. -/
def jsonWs (c : Char) : Bool := c = ' ' || c = '\t' || c = '\n' || c = '\r'

/-- Value of one hexadecimal digit, either case, as in a `\uXXXX` escape. -/
def hexVal (c : Char) : Option Nat :=
  if '0' ≤ c ∧ c ≤ '9' then some (c.toNat - 48)
  else if 'a' ≤ c ∧ c ≤ 'f' then some (c.toNat - 87)
  else if 'A' ≤ c ∧ c ≤ 'F' then some (c.toNat - 55)
  else none

/-- Prepend a decoded character to a string-parse result. -/
def consStr (c : Char) (r : Option (List Char × List Char)) :
    Option (List Char × List Char) :=
  r.map (fun p => (c :: p.1, p.2))

/-- Four hexadecimal digits, as consumed by a `\uXXXX` escape. -/
def parseHex4 : List Char → Option (Nat × List Char)
  | h1 :: h2 :: h3 :: h4 :: rest =>
    match hexVal h1, hexVal h2, hexVal h3, hexVal h4 with
    | some a, some b, some c, some d => some (a * 4096 + b * 256 + c * 16 + d, rest)
    | _, _, _, _ => none
  | _ => none

/-- A `\uXXXX` escape, entered after the `u`: a high surrogate must be
followed by a second escape holding a low surrogate and the pair combines; an
escape denoting a lone surrogate yields a Python string that is not
representable as Lean characters, is answered `none`, and never arises from
`json.dumps` output. -/
def parseUEscape (cs : List Char) : Option (Char × List Char) :=
  match parseHex4 cs with
  | none => none
  | some (n, cs2) =>
    if 0xD800 ≤ n ∧ n ≤ 0xDBFF then
      match cs2 with
      | e1 :: e2 :: cs3 =>
        if e1 = '\\' ∧ e2 = 'u' then
          match parseHex4 cs3 with
          | some (m, cs4) =>
            if 0xDC00 ≤ m ∧ m ≤ 0xDFFF then
              some (Char.ofNat (0x10000 + (n - 0xD800) * 1024 + (m - 0xDC00)), cs4)
            else none
          | none => none
        else none
      | _ => none
    else if 0xDC00 ≤ n ∧ n ≤ 0xDFFF then none
    else some (Char.ofNat n, cs2)

/-- Escape handling of the decoder's string scanner (`py_scanstring`),
entered after a backslash: the short escapes and `\uXXXX` escapes.  Unknown
escapes are rejected as Python does. -/
def parseEscape (cs : List Char) : Option (Char × List Char) :=
  match cs with
  | [] => none
  | e :: cs1 =>
    if e = '"' then some ('"', cs1)
    else if e = '\\' then some ('\\', cs1)
    else if e = '/' then some ('/', cs1)
    else if e = 'b' then some (Char.ofNat 8, cs1)
    else if e = 'f' then some (Char.ofNat 12, cs1)
    else if e = 'n' then some ('\n', cs1)
    else if e = 'r' then some ('\r', cs1)
    else if e = 't' then some ('\t', cs1)
    else if e = 'u' then parseUEscape cs1
    else none

/-- Loop of the decoder's string scanner, entered after the opening quote:
characters up to the closing quote, rejecting raw control characters (strict
mode), decoding escapes through `parseEscape`.  The fuel only makes the
recursion structural; every step consumes at least one character, so the
input length is always sufficient. -/
def parseStringGo : Nat → List Char → Option (List Char × List Char)
  | _, [] => none
  | 0, _ :: _ => none
  | fuel + 1, c :: cs =>
    if c = '"' then some ([], cs)
    else if c = '\\' then
      match parseEscape cs with
      | some (d, rest) => consStr d (parseStringGo fuel rest)
      | none => none
    else if c.toNat < 0x20 then none
    else consStr c (parseStringGo fuel cs)

/-- The decoder's string scanner (`py_scanstring`), entered after the opening
quote. -/
def parseStringAux (cs : List Char) : Option (List Char × List Char) :=
  parseStringGo cs.length cs

/-- Decimal digit test. -/
def isDigitCh (c : Char) : Bool := 48 ≤ c.toNat && c.toNat ≤ 57

/-- Fold a digit run into its value. -/
def digitsToNat (ds : List Char) : Nat :=
  ds.foldl (fun a c => a * 10 + (c.toNat - 48)) 0

/-- Integer part of the decoder's number regex, `0|[1-9][0-9]*`: a leading
zero matches alone, otherwise the longest digit run. -/
def parseUIntPart : List Char → Option (Nat × List Char)
  | [] => none
  | c :: rest =>
    if c = '0' then some (0, rest)
    else if isDigitCh c then
      some (digitsToNat (c :: rest.takeWhile isDigitCh), rest.dropWhile isDigitCh)
    else none

/-- True when the next character would extend the number to a float. -/
def floatFollows : List Char → Bool
  | c :: _ => c = '.' || c = 'e' || c = 'E'
  | [] => false

/-- The decoder's number production restricted to integers: optional minus
sign and the integer part.  A fraction or exponent would make Python parse a
float, which is outside the embedded value domain (the program never emits
one); such input is answered `none`. -/
def parseNumber (cs : List Char) : Option (Int × List Char) :=
  match cs with
  | [] => none
  | c :: rest =>
    if c = '-' then
      match parseUIntPart rest with
      | some (n, r) => if floatFollows r then none else some (-(n : Int), r)
      | none => none
    else
      match parseUIntPart (c :: rest) with
      | some (n, r) => if floatFollows r then none else some ((n : Int), r)
      | none => none

mutual
/-- The decoder's value scanner: skip whitespace, dispatch on the first
character to a string, array, object, literal or number, returning the value
and the unconsumed remainder.  The fuel bounds the nesting recursion and is
consumed on every step; `jneed` below computes a sufficient amount. -/
def parseValue : Nat → List Char → Option (Json × List Char)
  | 0, _ => none
  | fuel + 1, cs =>
    match cs.dropWhile jsonWs with
    | [] => none
    | c :: rest =>
      if c = '"' then (parseStringAux rest).map (fun p => (.str (String.mk p.1), p.2))
      else if c = '[' then
        match rest.dropWhile jsonWs with
        | c2 :: r2 =>
          if c2 = ']' then some (.arr [], r2)
          else (parseElems fuel rest).map (fun p => (.arr p.1, p.2))
        | [] => (parseElems fuel rest).map (fun p => (.arr p.1, p.2))
      else if c = '{' then
        match rest.dropWhile jsonWs with
        | c2 :: r2 =>
          if c2 = '}' then some (.obj [], r2)
          else (parseMembers fuel rest).map (fun p => (.obj p.1, p.2))
        | [] => (parseMembers fuel rest).map (fun p => (.obj p.1, p.2))
      else if c = 't' then
        match rest with
        | c1 :: c2 :: c3 :: r =>
          if c1 = 'r' ∧ c2 = 'u' ∧ c3 = 'e' then some (.bool true, r) else none
        | _ => none
      else if c = 'f' then
        match rest with
        | c1 :: c2 :: c3 :: c4 :: r =>
          if c1 = 'a' ∧ c2 = 'l' ∧ c3 = 's' ∧ c4 = 'e' then some (.bool false, r) else none
        | _ => none
      else if c = 'n' then
        match rest with
        | c1 :: c2 :: c3 :: r =>
          if c1 = 'u' ∧ c2 = 'l' ∧ c3 = 'l' then some (.null, r) else none
        | _ => none
      else (parseNumber (c :: rest)).map (fun p => (.int p.1, p.2))

/-- Elements of a nonempty array, entered after the opening bracket. -/
def parseElems : Nat → List Char → Option (List Json × List Char)
  | 0, _ => none
  | fuel + 1, cs =>
    match parseValue fuel cs with
    | none => none
    | some (v, r) =>
      match r.dropWhile jsonWs with
      | c :: r2 =>
        if c = ',' then (parseElems fuel r2).map (fun p => (v :: p.1, p.2))
        else if c = ']' then some ([v], r2)
        else none
      | [] => none

/-- Members of a nonempty object, entered after the opening brace. -/
def parseMembers : Nat → List Char → Option (List (String × Json) × List Char)
  | 0, _ => none
  | fuel + 1, cs =>
    match cs.dropWhile jsonWs with
    | c0 :: r1 =>
      if c0 = '"' then
        match parseStringAux r1 with
        | none => none
        | some (k, r2) =>
          match r2.dropWhile jsonWs with
          | c1 :: r3 =>
            if c1 = ':' then
              match parseValue fuel r3 with
              | none => none
              | some (v, r4) =>
                match r4.dropWhile jsonWs with
                | c2 :: r5 =>
                  if c2 = ',' then
                    (parseMembers fuel r5).map (fun p => ((String.mk k, v) :: p.1, p.2))
                  else if c2 = '}' then some ([(String.mk k, v)], r5)
                  else none
                | [] => none
            else none
          | [] => none
      else none
    | [] => none
end

/-- `json.loads` on a character sequence: parse one value (the input length
plus one is always sufficient fuel) and require only whitespace to remain.
`none` is where Python raises `json.JSONDecodeError`. -/
def loadsChars (cs : List Char) : Option Json :=
  match parseValue (cs.length + 1) cs with
  | some (j, rest) => if (rest.dropWhile jsonWs).isEmpty then some j else none
  | none => none

/-! ## Wire protocol: server responses and the client decoder -/

/-- A response as `handle_client` builds one before serialization: status,
message text, and the optional `data` payload (the empty list standing for a
`data` argument that is `None` or an empty dict, which `create_response`
leaves out either way). -/
structure Resp where
  status : String
  message : String
  data : List (String × Json)

/-- `FTPProtocol.create_response` (src/server/main.py lines 24-33), up to
serialization: the response dict with keys `status` and `message` in that
order, and `data` appended only when the payload is truthy (nonempty). -/
def FTPProtocol.create_response (status message : String)
    (data : List (String × Json)) : Json :=
  .obj ([("status", .str status), ("message", .str message)] ++
    (if data.isEmpty then [] else [("data", .obj data)]))

/-- The serialization half of `FTPProtocol.create_response`:
`(json.dumps(response) + "\n").encode('utf-8')`. -/
def encodeMessage (m : Json) : List Nat :=
  utf8EncodeList (dumpChars m ++ ['\n'])

/-- A `Resp` rendered to its wire bytes. -/
def encodeResp (r : Resp) : List Nat :=
  encodeMessage (FTPProtocol.create_response r.status r.message r.data)

/-- Python `str.split('\n')`: split on every newline, keeping empty pieces. -/
def splitNl (cs : List Char) : List (List Char) :=
  cs.foldr
    (fun c acc =>
      if c = '\n' then [] :: acc else (c :: acc.headD []) :: acc.tail)
    [[]]

/-- `FTPClient.receive_response` (src/client/main.py lines 48-73) applied to
one received buffer: decode as UTF-8, strip, split on newlines, and parse the
first nonempty line as JSON; any decode or parse failure returns `None`, as
the `except` clauses do. -/
def FTPClient.receive_response (bs : List Nat) : Option Json :=
  match utf8DecodeList bs with
  | none => none
  | some text =>
    match (splitNl (pyStrip text)).filter (fun l => !l.isEmpty) with
    | [] => none
    | line :: _ => loadsChars line

/-! ## The session (`handle_client`, src/server/main.py) -/

/-- `LoggingHandler` (src/server/handlers.py lines 174-176): the class body
is only a docstring and `pass`, so an instance has no attributes at all — in
particular none of the `log_*` methods that `handle_client` calls on
`logger`. -/
def LoggingHandler.attrs : List String := []

/-- A `logger.<m>(...)` call site: the attribute lookup succeeds only when
`m` is an attribute of the method-less `LoggingHandler` instance, and
otherwise raises `AttributeError` — modelled at each call site by taking the
`false` branch along the source's exception path. -/
def logCallOk (m : String) : Bool := LoggingHandler.attrs.contains m

/-- How one iteration of the `handle_client` command loop ends: fall through
to the next `recv`, leave via the EXIT branch's `break` (line 83), or abort
on an exception that the handler at src/server/main.py lines 229-234
catches, closing the session. -/
inductive StepEnd where
  | continueLoop
  | exitLoop
  | exceptionCaught
deriving DecidableEq

/-- The `except Exception` handler of the GET branch (src/server/main.py
lines 150-154): it calls `logger.log_error` first, so the "Failed to read
file" response is built and sent only when that call succeeds; on the stub
logger the call raises `AttributeError`, which escapes to the outer handler
at line 232. -/
def getExceptHandler (sent : List Resp) (fs : FS) : List Resp × StepEnd × FS :=
  if logCallOk "log_error" then
    (sent ++ [⟨"ERROR", "Failed to read file: <exception>", []⟩], .continueLoop, fs)
  else (sent, .exceptionCaught, fs)

/-- Python's `in` test of the PUT branch, `"content" in json_data`: key
membership for a dict, element membership for a list, substring test for a
string, and a `TypeError` (here `none`) for the other JSON values. -/
def pyContainsContent : Json → Option Bool
  | .obj kvs => some (kvs.any (fun kv => kv.1 == "content"))
  | .arr l => some (l.any (fun e => e == Json.str "content"))
  | .str s => some (s.data.tails.any (fun t => ("content".data).isPrefixOf t))
  | _ => none

/-- Value under the key `"content"` of an object (unique keys in any dict
`json.loads` can produce). -/
def contentValue (kvs : List (String × Json)) : Option Json :=
  (kvs.find? (fun kv => kv.1 == "content")).map (·.2)

/-- One iteration of the `handle_client` command loop (src/server/main.py
lines 79-227) after the received line has been parsed into `command` and
`argument`, with every `logger.log_*` call modelled at its source position
as an attribute lookup on the stub logger: the responses actually sent over
the socket in order, how the iteration ends, and the filesystem afterwards.
`putRecv` is the byte buffer that `conn.recv(8192)` returns inside the PUT
branch (unused by every other branch); exception texts interpolated into
error messages are not modelled and appear as the placeholder
`<exception>`. -/
def dispatchLogged (cwd : List String) (fs : FS) (command argument : String)
    (putRecv : List Nat) : List Resp × StepEnd × FS :=
  let root := dataRoot cwd
  if command = "EXIT" then
    -- lines 80-83: no logger call on this path
    ([⟨"OK", "Goodbye", []⟩], .exitLoop, fs)
  else if command = "LS" then
    if fs.dirs.contains root then
      let files := fs.childFiles root
      ([⟨"OK", "Files: " ++ Nat.repr files.length, [("files", .arr (files.map .str))]⟩],
        .continueLoop, fs)
    else if (fs.lookupFile root).isSome then
      -- iterdir raises; the except block (lines 97-99) calls logger.log_error
      -- before building the response
      if logCallOk "log_error" then
        ([⟨"ERROR", "Failed to list files: <exception>", []⟩], .continueLoop, fs)
      else ([], .exceptionCaught, fs)
    else
      ([⟨"OK", "No files", [("files", .arr [])]⟩], .continueLoop, fs)
  else if command = "GET" then
    if argument = "" then
      -- lines 104-106: no logger call on this path
      ([⟨"ERROR", "GET requires filename", []⟩], .continueLoop, fs)
    else
      match fs.lookupFile (resolvePath root argument) with
      | some content =>
        -- the metadata is sent (line 118) before the content is examined
        let meta : Resp :=
          ⟨"OK", "Sending " ++ argument,
            [("filename", .str argument), ("size", .int content.length)]⟩
        if content.length < 1024 then
          match utf8DecodeList content with
          | some textChars =>
            -- FILE_DATA is sent (line 132); then logger.log_download
            -- (line 135) raises into the except handler at line 150
            let resp : Resp :=
              ⟨"FILE_DATA", "", [("content", .str (String.mk textChars))]⟩
            if logCallOk "log_download" then ([meta, resp], .continueLoop, fs)
            else getExceptHandler [meta, resp] fs
          | none =>
            -- the ERROR is sent (line 141); then logger.log_error (line 142)
            -- raises into the except handler at line 150
            let resp : Resp := ⟨"ERROR", "Binary file transfer not yet implemented", []⟩
            if logCallOk "log_error" then ([meta, resp], .continueLoop, fs)
            else getExceptHandler [meta, resp] fs
        else
          -- the ERROR is sent (line 148); then logger.log_error (line 149)
          -- raises into the except handler at line 150
          let resp : Resp := ⟨"ERROR", "Large file transfer not yet implemented", []⟩
          if logCallOk "log_error" then ([meta, resp], .continueLoop, fs)
          else getExceptHandler [meta, resp] fs
      | none =>
        -- lines 155-159: logger.log_error (line 157) runs before the
        -- "File not found" response is built at line 158; this branch lies
        -- outside the inner try, so the AttributeError is caught only at
        -- line 232 and the session closes
        if logCallOk "log_error" then
          ([⟨"ERROR", "File not found: " ++ argument, []⟩], .continueLoop, fs)
        else ([], .exceptionCaught, fs)
  else if command = "PUT" then
    if argument = "" then
      -- lines 163-165: no logger call on this path
      ([⟨"ERROR", "PUT requires filename", []⟩], .continueLoop, fs)
    else
      -- READY is sent at line 172 before the file data is received
      let ready : Resp := ⟨"READY", "Ready to receive " ++ argument, []⟩
      if putRecv.isEmpty then
        -- lines 214-217: logger.log_error (line 216) runs before the response
        if logCallOk "log_error" then
          ([ready, ⟨"ERROR", "No file data received", []⟩], .continueLoop, fs)
        else ([ready], .exceptionCaught, fs)
      else
        let p := resolvePath root argument
        match utf8DecodeList putRecv with
        | none =>
          -- UnicodeDecodeError from decode (line 179) reaches the except
          -- at line 211, whose logger.log_error (line 212) runs before the
          -- "Failed to save file" response is built
          if logCallOk "log_error" then
            ([ready, ⟨"ERROR", "Failed to save file: <exception>", []⟩],
              .continueLoop, fs)
          else ([ready], .exceptionCaught, fs)
        | some textChars =>
          match loadsChars textChars with
          | none =>
            -- JSONDecodeError handler (lines 198-210): write_bytes (line 201)
            -- has already stored the raw bytes when logger.log_upload
            -- (line 205) raises inside this handler, escaping to line 232
            let fs2 := fs.setFile p putRecv
            if logCallOk "log_upload" then
              ([ready, ⟨"OK", "File " ++ argument ++ " saved successfully", []⟩],
                .continueLoop, fs2)
            else ([ready], .exceptionCaught, fs2)
          | some j =>
            match pyContainsContent j with
            | none =>
              -- a TypeError from the membership test (line 180) reaches the
              -- except at line 211, whose logger.log_error runs first
              if logCallOk "log_error" then
                ([ready, ⟨"ERROR", "Failed to save file: <exception>", []⟩],
                  .continueLoop, fs)
              else ([ready], .exceptionCaught, fs)
            | some false =>
              -- lines 192-197: the "Invalid file data format" response is
              -- built, then logger.log_error (line 197) raises before the
              -- sendall at line 218
              if logCallOk "log_error" then
                ([ready, ⟨"ERROR", "Invalid file data format", []⟩], .continueLoop, fs)
              else ([ready], .exceptionCaught, fs)
            | some true =>
              match j with
              | .obj kvs =>
                match contentValue kvs with
                | some (.str s) =>
                  -- write_text (line 182) has stored the content when
                  -- logger.log_upload (line 186) raises into the except at
                  -- line 211, whose own logger.log_error (line 212) runs
                  -- before the response is built
                  let fs2 := fs.setFile p (utf8EncodeList s.data)
                  if logCallOk "log_upload" then
                    ([ready, ⟨"OK", "File " ++ argument ++ " saved successfully", []⟩],
                      .continueLoop, fs2)
                  else if logCallOk "log_error" then
                    ([ready, ⟨"ERROR", "Failed to save file: <exception>", []⟩],
                      .continueLoop, fs2)
                  else ([ready], .exceptionCaught, fs2)
                | _ =>
                  -- write_text on a non-string raises TypeError, reaching the
                  -- except at line 211
                  if logCallOk "log_error" then
                    ([ready, ⟨"ERROR", "Failed to save file: <exception>", []⟩],
                      .continueLoop, fs)
                  else ([ready], .exceptionCaught, fs)
              | _ =>
                -- indexing a non-dict raises TypeError, reaching the except
                -- at line 211
                if logCallOk "log_error" then
                  ([ready, ⟨"ERROR", "Failed to save file: <exception>", []⟩],
                    .continueLoop, fs)
                else ([ready], .exceptionCaught, fs)
  else
    -- lines 220-227: logger.log_error (line 222) runs before the
    -- "Unknown command" response is built
    if logCallOk "log_error" then
      ([⟨"ERROR", "Unknown command: " ++ command ++ ". Use LS, GET, PUT, or EXIT", []⟩],
        .continueLoop, fs)
    else ([], .exceptionCaught, fs)

/-- How the whole `handle_client` session ends. -/
inductive SessEnd where
  /-- The AttributeError from `logger.log_connection` (line 53) escaped
  `handle_client` before its `try` block: no byte was ever sent. -/
  | crashedBeforeTry
  /-- An exception inside the `try` was caught at lines 229-234 and the
  session closed. -/
  | closedByException
  /-- The receive loop ended normally: `recv` returned no data (lines
  66-67), or the modelled buffer list ran out. -/
  | closedEof
  /-- The EXIT branch's `break` (line 83) ended the loop. -/
  | closedExit
deriving DecidableEq

/-- The command loop of `handle_client` (src/server/main.py lines 63-227)
over the successive buffers `recv` returns, checking `logger.log_command`
(line 77) before each dispatch; the PUT branch with a nonempty argument
consumes the following buffer as its file data (`conn.recv(8192)`,
line 175).  Structured on fuel; the wrapper supplies one unit more than the
buffer count, which no run can exhaust. -/
def sessionGo (cwd : List String) :
    Nat → FS → List (List Nat) → List Resp × SessEnd × FS
  | 0, fs, _ => ([], .closedEof, fs)
  | _ + 1, fs, [] => ([], .closedEof, fs)
  | fuel + 1, fs, data :: rest =>
    if data.isEmpty then ([], .closedEof, fs)
    else
      let pc := FTPProtocol.parse_command data
      let command := String.mk pc.1
      let argument := String.mk pc.2
      if logCallOk "log_command" then
        let step := dispatchLogged cwd fs command argument (rest.headD [])
        let rest2 := if command = "PUT" ∧ argument ≠ "" then rest.tail else rest
        match step.2.1 with
        | .continueLoop =>
          let k := sessionGo cwd fuel step.2.2 rest2
          (step.1 ++ k.1, k.2.1, k.2.2)
        | .exitLoop => (step.1, .closedExit, step.2.2)
        | .exceptionCaught => (step.1, .closedByException, step.2.2)
      else
        -- logger.log_command (line 77) raises AttributeError, caught at
        -- line 232: the session closes with nothing sent this iteration
        ([], .closedByException, fs)

/-- `handle_client` (src/server/main.py lines 48-238): `logger.log_connection`
(line 53) runs before the `try` block, so when it raises the thread dies
with nothing sent — not even the welcome message; otherwise the welcome is
sent (lines 60-61) and the command loop runs over the received buffers. -/
def handle_client_session (cwd : List String) (fs : FS)
    (recvs : List (List Nat)) : List Resp × SessEnd × FS :=
  if logCallOk "log_connection" then
    let welcome : Resp :=
      ⟨"OK", "Welcome to FTP Server. Commands: LS, GET <file>, PUT <file>, EXIT", []⟩
    let k := sessionGo cwd (recvs.length + 1) fs recvs
    (welcome :: k.1, k.2.1, k.2.2)
  else ([], .crashedBeforeTry, fs)

/-! ## Auxiliary measures and predicates used by the theorems -/

mutual
/-- Fuel sufficient for `parseValue` on the serialization of a value: one unit
per scanner step, combining children by maximum since sibling parses run at
the same fuel. -/
def jneed : Json → Nat
  | .str _ => 1
  | .int _ => 1
  | .bool _ => 1
  | .null => 1
  | .arr [] => 1
  | .arr (e :: es) => 1 + jneedElems (e :: es)
  | .obj [] => 1
  | .obj (m :: ms) => 1 + jneedMembers (m :: ms)

/-- Fuel sufficient for `parseElems` on serialized elements. -/
def jneedElems : List Json → Nat
  | [] => 0
  | e :: es => 1 + max (jneed e) (jneedElems es)

/-- Fuel sufficient for `parseMembers` on serialized members. -/
def jneedMembers : List (String × Json) → Nat
  | [] => 0
  | (_, v) :: ms => 1 + max (jneed v) (jneedMembers ms)
end

/-- Characters that may legitimately follow a serialized number without
extending it: anything except a digit or a float continuation.  In `dumps`
output a value is followed by a separator, a closing bracket or the end of
input, all of which qualify. -/
def followOk : List Char → Prop
  | [] => True
  | c :: _ => isDigitCh c = false ∧ c ≠ '.' ∧ c ≠ 'e' ∧ c ≠ 'E'

instance : ∀ cs, Decidable (followOk cs)
  | [] => by unfold followOk; infer_instance
  | _ :: _ => by unfold followOk; infer_instance

/-- All characters of a line lie in the ASCII range, the domain on which the
embedding of `str.upper` and `str.split` is exact. -/
def allAscii (cs : List Char) : Prop := ∀ c ∈ cs, c.toNat < 128

instance (cs : List Char) : Decidable (allAscii cs) := by
  unfold allAscii; infer_instance

/-- A verb-shaped piece of a command line: free of Python whitespace. -/
def tokenLike (cs : List Char) : Prop := ∀ c ∈ cs, isPySpace c = false

instance (cs : List Char) : Decidable (tokenLike cs) := by
  unfold tokenLike; infer_instance

/-! ## List helper lemmas -/

theorem takeWhile_append_all {α : Type} (p : α → Bool) (xs ys : List α)
    (h : ∀ x ∈ xs, p x = true) :
    (xs ++ ys).takeWhile p = xs ++ ys.takeWhile p := by
  induction xs with
  | nil => simp
  | cons a l ih =>
    simp only [List.cons_append, List.takeWhile_cons, h a (by simp), if_pos]
    rw [ih (fun x hx => h x (by simp [hx]))]

theorem dropWhile_append_all {α : Type} (p : α → Bool) (xs ys : List α)
    (h : ∀ x ∈ xs, p x = true) :
    (xs ++ ys).dropWhile p = ys.dropWhile p := by
  induction xs with
  | nil => simp
  | cons a l ih =>
    simp only [List.cons_append, List.dropWhile_cons, h a (by simp), if_pos]
    exact ih (fun x hx => h x (by simp [hx]))

theorem takeWhile_append_none {α : Type} (p : α → Bool) (xs ys : List α)
    (h : ∀ y ∈ ys, p y = false) :
    (xs ++ ys).takeWhile p = xs.takeWhile p := by
  induction xs with
  | nil =>
    simp only [List.nil_append]
    cases ys with
    | nil => rfl
    | cons b l => simp [List.takeWhile_cons, h b (by simp)]
  | cons a l ih =>
    simp only [List.cons_append, List.takeWhile_cons]
    by_cases hp : p a = true
    · simp [hp, ih]
    · simp [hp]

theorem mem_takeWhile_sat {α : Type} (p : α → Bool) (l : List α) :
    ∀ x ∈ l.takeWhile p, p x = true := by
  induction l with
  | nil => simp
  | cons a t ih =>
    simp only [List.takeWhile_cons]
    by_cases hp : p a = true
    · simp only [hp, if_pos]
      intro x hx
      rcases List.mem_cons.mp hx with h | h
      · exact h ▸ hp
      · exact ih x h
    · simp [hp]

/-! ## UTF-8 round trip -/

theorem utf8EncodeList_append (xs ys : List Char) :
    utf8EncodeList (xs ++ ys) = utf8EncodeList xs ++ utf8EncodeList ys := by
  induction xs with
  | nil => rfl
  | cons c t ih => simp [utf8EncodeList, List.foldr_cons, List.append_assoc] at ih ⊢; rw [ih]

theorem utf8EncodeChar_step (c : Char) (rest : List Nat) :
    ∃ b tail, utf8EncodeChar c = b :: tail ∧
      utf8DecodeStep b (tail ++ rest) = some (c, rest) := by
  have hv : c.toNat < 55296 ∨ (57343 < c.toNat ∧ c.toNat < 1114112) := c.valid
  by_cases h1 : c.toNat < 128
  · refine ⟨c.toNat, [], by simp only [utf8EncodeChar]; rw [if_pos h1], ?_⟩
    simp only [List.nil_append, utf8DecodeStep]
    rw [if_pos h1, Char.ofNat_toNat]
  · by_cases h2 : c.toNat < 2048
    · refine ⟨192 + c.toNat / 64, [128 + c.toNat % 64],
        by simp only [utf8EncodeChar]; rw [if_neg h1, if_pos h2], ?_⟩
      simp only [List.cons_append, List.nil_append, utf8DecodeStep]
      rw [if_neg (by omega), if_neg (by omega), if_pos (by omega),
        if_pos (by constructor <;> omega)]
      have harith : (192 + c.toNat / 64 - 192) * 64 + (128 + c.toNat % 64 - 128) = c.toNat := by
        omega
      rw [harith, Char.ofNat_toNat]
    · by_cases h3 : c.toNat < 65536
      · refine ⟨224 + c.toNat / 4096, [128 + c.toNat / 64 % 64, 128 + c.toNat % 64],
          by simp only [utf8EncodeChar]; rw [if_neg h1, if_neg h2, if_pos h3], ?_⟩
        have hcond : (128 ≤ 128 + c.toNat / 64 % 64 ∧ 128 + c.toNat / 64 % 64 ≤ 191) ∧
            (128 ≤ 128 + c.toNat % 64 ∧ 128 + c.toNat % 64 ≤ 191) ∧
            (224 + c.toNat / 4096 = 224 → 160 ≤ 128 + c.toNat / 64 % 64) ∧
            (224 + c.toNat / 4096 = 237 → 128 + c.toNat / 64 % 64 ≤ 159) :=
          ⟨⟨by omega, by omega⟩, ⟨by omega, by omega⟩, fun h => by omega, fun h => by omega⟩
        simp only [List.cons_append, List.nil_append, utf8DecodeStep]
        rw [if_neg (by omega), if_neg (by omega), if_neg (by omega), if_pos (by omega),
          if_pos hcond]
        have harith : (224 + c.toNat / 4096 - 224) * 4096 +
            (128 + c.toNat / 64 % 64 - 128) * 64 + (128 + c.toNat % 64 - 128) = c.toNat := by
          omega
        rw [harith, Char.ofNat_toNat]
      · refine ⟨240 + c.toNat / 262144,
          [128 + c.toNat / 4096 % 64, 128 + c.toNat / 64 % 64, 128 + c.toNat % 64],
          by simp only [utf8EncodeChar]; rw [if_neg h1, if_neg h2, if_neg h3], ?_⟩
        have hcond : (128 ≤ 128 + c.toNat / 4096 % 64 ∧ 128 + c.toNat / 4096 % 64 ≤ 191) ∧
            (128 ≤ 128 + c.toNat / 64 % 64 ∧ 128 + c.toNat / 64 % 64 ≤ 191) ∧
            (128 ≤ 128 + c.toNat % 64 ∧ 128 + c.toNat % 64 ≤ 191) ∧
            (240 + c.toNat / 262144 = 240 → 144 ≤ 128 + c.toNat / 4096 % 64) ∧
            (240 + c.toNat / 262144 = 244 → 128 + c.toNat / 4096 % 64 ≤ 143) :=
          ⟨⟨by omega, by omega⟩, ⟨by omega, by omega⟩, ⟨by omega, by omega⟩,
            fun h => by omega, fun h => by omega⟩
        simp only [List.cons_append, List.nil_append, utf8DecodeStep]
        rw [if_neg (by omega), if_neg (by omega), if_neg (by omega), if_neg (by omega),
          if_pos (by omega), if_pos hcond]
        have harith : (240 + c.toNat / 262144 - 240) * 262144 +
            (128 + c.toNat / 4096 % 64 - 128) * 4096 +
            (128 + c.toNat / 64 % 64 - 128) * 64 + (128 + c.toNat % 64 - 128) = c.toNat := by
          omega
        rw [harith, Char.ofNat_toNat]

theorem utf8DecodeGo_encode :
    ∀ (cs : List Char) (fuel : Nat), (utf8EncodeList cs).length ≤ fuel →
      utf8DecodeGo fuel (utf8EncodeList cs) = some cs := by
  intro cs
  induction cs with
  | nil => intro fuel _; cases fuel <;> rfl
  | cons c t ih =>
    intro fuel h
    obtain ⟨b, tail, heq, hstep⟩ := utf8EncodeChar_step c (utf8EncodeList t)
    have henc : utf8EncodeList (c :: t) = b :: (tail ++ utf8EncodeList t) := by
      show utf8EncodeChar c ++ utf8EncodeList t = _
      rw [heq, List.cons_append]
    rw [henc] at h ⊢
    cases fuel with
    | zero => simp at h
    | succ f =>
      have hred : utf8DecodeGo (f + 1) (b :: (tail ++ utf8EncodeList t)) =
          match utf8DecodeStep b (tail ++ utf8EncodeList t) with
          | some (c, rest) => (utf8DecodeGo f rest).map (c :: ·)
          | none => none := rfl
      rw [hred, hstep]
      have hlen : (utf8EncodeList t).length ≤ f := by
        simp only [List.length_cons, List.length_append] at h
        omega
      show Option.map (fun x => c :: x) (utf8DecodeGo f (utf8EncodeList t)) = some (c :: t)
      rw [ih f hlen]
      rfl

theorem utf8_decode_encode (cs : List Char) :
    utf8DecodeList (utf8EncodeList cs) = some cs :=
  utf8DecodeGo_encode cs _ le_rfl

/-! ## String escaping round trip -/

theorem hexVal_hexDigitChar (d : Nat) (h : d < 16) :
    hexVal (hexDigitChar d) = some d := by
  interval_cases d <;> decide

theorem escapeList_cons (c : Char) (t : List Char) :
    escapeList (c :: t) = escapeChar c ++ escapeList t := rfl

theorem escapeChar_length_pos (c : Char) : 1 ≤ (escapeChar c).length := by
  unfold escapeChar
  repeat' split
  all_goals simp

theorem escapeList_length (s : List Char) : s.length ≤ (escapeList s).length := by
  induction s with
  | nil => simp [escapeList]
  | cons c t ih =>
    rw [escapeList_cons]
    simp only [List.length_append, List.length_cons]
    have := escapeChar_length_pos c
    omega

theorem parseHex4_toHex4 (n : Nat) (h : n < 65536) (rest : List Char) :
    parseHex4 (toHex4 n ++ rest) = some (n, rest) := by
  simp only [toHex4, List.cons_append, List.nil_append, parseHex4]
  rw [hexVal_hexDigitChar _ (by omega), hexVal_hexDigitChar _ (by omega),
    hexVal_hexDigitChar _ (by omega), hexVal_hexDigitChar _ (by omega)]
  show some (n / 4096 % 16 * 4096 + n / 256 % 16 * 256 + n / 16 % 16 * 16 + n % 16, rest) =
    some (n, rest)
  have harith : n / 4096 % 16 * 4096 + n / 256 % 16 * 256 + n / 16 % 16 * 16 + n % 16 = n := by
    omega
  rw [harith]

theorem parseEscape_u (cs : List Char) : parseEscape ('u' :: cs) = parseUEscape cs := by
  simp [parseEscape]

theorem parseUEscape_bmp (n : Nat) (h : n < 65536)
    (hs : ¬ (55296 ≤ n ∧ n ≤ 57343)) (rest : List Char) :
    parseUEscape (toHex4 n ++ rest) = some (Char.ofNat n, rest) := by
  simp only [parseUEscape]
  rw [parseHex4_toHex4 n h rest]
  dsimp only
  rw [if_neg (by omega), if_neg (by omega)]

theorem parseUEscape_pair (hi lo : Nat) (hhi : 55296 ≤ hi ∧ hi ≤ 56319)
    (hlo : 56320 ≤ lo ∧ lo ≤ 57343) (rest : List Char) :
    parseUEscape (toHex4 hi ++ ('\\' :: 'u' :: (toHex4 lo ++ rest))) =
      some (Char.ofNat (65536 + (hi - 55296) * 1024 + (lo - 56320)), rest) := by
  simp only [parseUEscape]
  rw [parseHex4_toHex4 hi (by omega)]
  dsimp only
  rw [if_pos hhi, if_pos ⟨rfl, rfl⟩, parseHex4_toHex4 lo (by omega)]
  dsimp only
  rw [if_pos hlo]

theorem parseEscape_escapeChar (c : Char) :
    (escapeChar c = [c] ∧ c ≠ '"' ∧ c ≠ '\\' ∧ ¬ c.toNat < 32) ∨
    (∃ u, escapeChar c = '\\' :: u ∧
      ∀ rest, parseEscape (u ++ rest) = some (c, rest)) := by
  have hv : c.toNat < 55296 ∨ (57343 < c.toNat ∧ c.toNat < 1114112) := c.valid
  by_cases hq : c = '"'
  · subst hq
    exact .inr ⟨['"'], rfl, fun rest => by simp [parseEscape]⟩
  · by_cases hb : c = '\\'
    · subst hb
      exact .inr ⟨['\\'], rfl, fun rest => by simp [parseEscape]⟩
    · by_cases hn : c = '\n'
      · subst hn
        exact .inr ⟨['n'], rfl, fun rest => by simp [parseEscape]⟩
      · by_cases ht : c = '\t'
        · subst ht
          exact .inr ⟨['t'], rfl, fun rest => by simp [parseEscape]⟩
        · by_cases hr : c = '\r'
          · subst hr
            exact .inr ⟨['r'], rfl, fun rest => by simp [parseEscape]⟩
          · by_cases h8 : c.toNat = 8
            · have hc : c = Char.ofNat 8 := by rw [← h8, Char.ofNat_toNat]
              subst hc
              exact .inr ⟨['b'], rfl, fun rest => by simp [parseEscape]⟩
            · by_cases h12 : c.toNat = 12
              · have hc : c = Char.ofNat 12 := by rw [← h12, Char.ofNat_toNat]
                subst hc
                exact .inr ⟨['f'], rfl, fun rest => by simp [parseEscape]⟩
              · by_cases hpr : 32 ≤ c.toNat ∧ c.toNat ≤ 126
                · refine .inl ⟨?_, hq, hb, by omega⟩
                  unfold escapeChar
                  rw [if_neg hq, if_neg hb, if_neg hn, if_neg ht, if_neg hr,
                    if_neg h8, if_neg h12, if_pos hpr]
                · by_cases hsm : c.toNat < 65536
                  · refine .inr ⟨'u' :: toHex4 c.toNat, ?_, ?_⟩
                    · unfold escapeChar
                      rw [if_neg hq, if_neg hb, if_neg hn, if_neg ht, if_neg hr,
                        if_neg h8, if_neg h12, if_neg hpr, if_pos hsm]
                    · intro rest
                      rw [List.cons_append, parseEscape_u,
                        parseUEscape_bmp c.toNat hsm (by omega) rest, Char.ofNat_toNat]
                  · refine .inr ⟨'u' :: (toHex4 (55296 + (c.toNat - 65536) / 1024) ++
                      ('\\' :: 'u' :: toHex4 (56320 + (c.toNat - 65536) % 1024))), ?_, ?_⟩
                    · unfold escapeChar
                      rw [if_neg hq, if_neg hb, if_neg hn, if_neg ht, if_neg hr,
                        if_neg h8, if_neg h12, if_neg hpr, if_neg hsm]
                      simp
                    · intro rest
                      rw [List.cons_append, parseEscape_u, List.append_assoc,
                        List.cons_append, List.cons_append]
                      rw [parseUEscape_pair _ _ (by omega) (by omega) rest]
                      have harith : 65536 + (55296 + (c.toNat - 65536) / 1024 - 55296) * 1024 +
                          (56320 + (c.toNat - 65536) % 1024 - 56320) = c.toNat := by omega
                      rw [harith, Char.ofNat_toNat]

theorem parseStringGo_escape :
    ∀ (s : List Char) (fuel : Nat) (rest : List Char), s.length + 1 ≤ fuel →
      parseStringGo fuel (escapeList s ++ '"' :: rest) = some (s, rest) := by
  intro s
  induction s with
  | nil =>
    intro fuel rest h
    cases fuel with
    | zero => omega
    | succ f =>
      show parseStringGo (f + 1) ('"' :: rest) = some ([], rest)
      have hred : parseStringGo (f + 1) ('"' :: rest) =
          if ('"' : Char) = '"' then some ([], rest)
          else if ('"' : Char) = '\\' then
            match parseEscape rest with
            | some (d, r) => consStr d (parseStringGo f r)
            | none => none
          else if ('"' : Char).toNat < 32 then none
          else consStr '"' (parseStringGo f rest) := rfl
      rw [hred, if_pos rfl]
  | cons c t ih =>
    intro fuel rest h
    cases fuel with
    | zero => simp at h
    | succ f =>
      have hlen : t.length + 1 ≤ f := by simp at h; omega
      rw [escapeList_cons, List.append_assoc]
      rcases parseEscape_escapeChar c with ⟨heq, hq, hb, hc⟩ | ⟨u, heq, hparse⟩
      · rw [heq, List.cons_append, List.nil_append]
        have hred : parseStringGo (f + 1) (c :: (escapeList t ++ '"' :: rest)) =
            if c = '"' then some ([], escapeList t ++ '"' :: rest)
            else if c = '\\' then
              match parseEscape (escapeList t ++ '"' :: rest) with
              | some (d, r) => consStr d (parseStringGo f r)
              | none => none
            else if c.toNat < 32 then none
            else consStr c (parseStringGo f (escapeList t ++ '"' :: rest)) := rfl
        rw [hred, if_neg hq, if_neg hb, if_neg hc, ih f rest hlen]
        rfl
      · rw [heq, List.cons_append]
        have hred : parseStringGo (f + 1) ('\\' :: (u ++ (escapeList t ++ '"' :: rest))) =
            if ('\\' : Char) = '"' then some ([], u ++ (escapeList t ++ '"' :: rest))
            else if ('\\' : Char) = '\\' then
              match parseEscape (u ++ (escapeList t ++ '"' :: rest)) with
              | some (d, r) => consStr d (parseStringGo f r)
              | none => none
            else if ('\\' : Char).toNat < 32 then none
            else consStr '\\' (parseStringGo f (u ++ (escapeList t ++ '"' :: rest))) := rfl
        rw [hred, if_neg (by decide), if_pos rfl, hparse (escapeList t ++ '"' :: rest)]
        show consStr c (parseStringGo f (escapeList t ++ '"' :: rest)) = some (c :: t, rest)
        rw [ih f rest hlen]
        rfl

theorem parseString_escape (s : List Char) (rest : List Char) :
    parseStringAux (escapeList s ++ '"' :: rest) = some (s, rest) := by
  have hlen : s.length + 1 ≤ (escapeList s ++ '"' :: rest).length := by
    simp only [List.length_append, List.length_cons]
    have := escapeList_length s
    omega
  exact parseStringGo_escape s _ rest hlen

/-! ## Number round trip -/

theorem toNat_digitChar (d : Nat) (h : d < 10) : (Char.ofNat (48 + d)).toNat = 48 + d := by
  interval_cases d <;> decide

theorem isDigitCh_digitChar (d : Nat) (h : d < 10) : isDigitCh (Char.ofNat (48 + d)) = true := by
  interval_cases d <;> decide

theorem digitChar_ne_zero (d : Nat) (h1 : 1 ≤ d) (h2 : d < 10) :
    Char.ofNat (48 + d) ≠ '0' := by
  interval_cases d <;> decide

theorem digitsToNat_append_digit (xs : List Char) (c : Char) :
    digitsToNat (xs ++ [c]) = digitsToNat xs * 10 + (c.toNat - 48) := by
  simp [digitsToNat, List.foldl_append]

theorem natCharsAux_spec :
    ∀ fuel n, n < fuel →
      natCharsAux fuel n ≠ [] ∧ (∀ c ∈ natCharsAux fuel n, isDigitCh c = true) ∧
        digitsToNat (natCharsAux fuel n) = n ∧
        (1 ≤ n → (natCharsAux fuel n).head? ≠ some '0') := by
  intro fuel
  induction fuel with
  | zero => intro n h; omega
  | succ f ih =>
    intro n h
    by_cases hn : n < 10
    · have hred : natCharsAux (f + 1) n =
          if n < 10 then [Char.ofNat (48 + n)]
          else natCharsAux f (n / 10) ++ [Char.ofNat (48 + n % 10)] := rfl
      rw [hred, if_pos hn]
      refine ⟨by simp, ?_, ?_, ?_⟩
      · intro c hc
        rcases List.mem_singleton.mp hc with rfl
        exact isDigitCh_digitChar n hn
      · simp [digitsToNat, toNat_digitChar n hn]
      · intro h1
        simp only [List.head?_cons, ne_eq, Option.some.injEq]
        exact digitChar_ne_zero n h1 hn
    · have hred : natCharsAux (f + 1) n =
          if n < 10 then [Char.ofNat (48 + n)]
          else natCharsAux f (n / 10) ++ [Char.ofNat (48 + n % 10)] := rfl
      rw [hred, if_neg hn]
      have hdiv : n / 10 < f := by omega
      obtain ⟨hne, hdig, hval, hhead⟩ := ih (n / 10) hdiv
      refine ⟨by simp, ?_, ?_, ?_⟩
      · intro c hc
        rcases List.mem_append.mp hc with hmem | hmem
        · exact hdig c hmem
        · rcases List.mem_singleton.mp hmem with rfl
          exact isDigitCh_digitChar (n % 10) (by omega)
      · rw [digitsToNat_append_digit, hval, toNat_digitChar (n % 10) (by omega)]
        omega
      · intro _
        cases hcs : natCharsAux f (n / 10) with
        | nil => exact absurd hcs hne
        | cons a l =>
          simp only [List.cons_append, List.head?_cons, ne_eq, Option.some.injEq]
          have := hhead (by omega)
          rw [hcs] at this
          simpa using this

theorem natChars_spec (n : Nat) :
    natChars n ≠ [] ∧ (∀ c ∈ natChars n, isDigitCh c = true) ∧
      digitsToNat (natChars n) = n ∧ (1 ≤ n → (natChars n).head? ≠ some '0') :=
  natCharsAux_spec (n + 1) n (by omega)

theorem floatFollows_of_followOk (rest : List Char) (h : followOk rest) :
    floatFollows rest = false := by
  cases rest with
  | nil => rfl
  | cons c l =>
    obtain ⟨_, h2, h3, h4⟩ := h
    simp [floatFollows, h2, h3, h4]

theorem takeWhile_digits_followOk (rest : List Char) (h : followOk rest) :
    rest.takeWhile isDigitCh = [] := by
  cases rest with
  | nil => rfl
  | cons c l =>
    obtain ⟨h1, _, _, _⟩ := h
    simp [List.takeWhile_cons, h1]

theorem dropWhile_digits_followOk (rest : List Char) (h : followOk rest) :
    rest.dropWhile isDigitCh = rest := by
  cases rest with
  | nil => rfl
  | cons c l =>
    obtain ⟨h1, _, _, _⟩ := h
    simp [List.dropWhile_cons, h1]

theorem parseUIntPart_natChars (n : Nat) (rest : List Char) (hr : followOk rest) :
    parseUIntPart (natChars n ++ rest) = some (n, rest) := by
  obtain ⟨hne, hdig, hval, hhead⟩ := natChars_spec n
  cases hcs : natChars n with
  | nil => exact absurd hcs hne
  | cons c cs =>
    rw [List.cons_append]
    have hred : parseUIntPart (c :: (cs ++ rest)) =
        if c = '0' then some (0, cs ++ rest)
        else if isDigitCh c then
          some (digitsToNat (c :: (cs ++ rest).takeWhile isDigitCh),
            (cs ++ rest).dropWhile isDigitCh)
        else none := rfl
    by_cases hz : n = 0
    · subst hz
      have h0 : natChars 0 = ['0'] := rfl
      rw [h0] at hcs
      cases hcs
      simp only [List.nil_append] at hred ⊢
      rw [hred, if_true]
    · have hc0 : c ≠ '0' := by
        have := hhead (by omega)
        rw [hcs] at this
        simpa using this
      have hcdig : isDigitCh c = true := hdig c (by rw [hcs]; simp)
      have hcsdig : ∀ x ∈ cs, isDigitCh x = true := by
        intro x hx
        exact hdig x (by rw [hcs]; simp [hx])
      rw [hred, if_neg hc0, if_pos hcdig]
      rw [takeWhile_append_all _ cs rest hcsdig, takeWhile_digits_followOk rest hr,
        dropWhile_append_all _ cs rest hcsdig, dropWhile_digits_followOk rest hr]
      rw [List.append_nil]
      have : digitsToNat (c :: cs) = n := by rw [← hcs]; exact hval
      rw [this]

theorem parseNumber_intChars (i : Int) (rest : List Char) (hr : followOk rest) :
    parseNumber (intChars i ++ rest) = some (i, rest) := by
  by_cases hneg : i < 0
  · have : intChars i = '-' :: natChars i.natAbs := by
      unfold intChars; rw [if_pos hneg]
    rw [this, List.cons_append]
    have hred : parseNumber ('-' :: (natChars i.natAbs ++ rest)) =
        if ('-' : Char) = '-' then
          match parseUIntPart (natChars i.natAbs ++ rest) with
          | some (n, r) => if floatFollows r then none else some (-(n : Int), r)
          | none => none
        else
          match parseUIntPart ('-' :: (natChars i.natAbs ++ rest)) with
          | some (n, r) => if floatFollows r then none else some ((n : Int), r)
          | none => none := rfl
    rw [hred, if_pos rfl, parseUIntPart_natChars i.natAbs rest hr]
    show (if floatFollows rest then none else some (-(i.natAbs : Int), rest)) = some (i, rest)
    rw [floatFollows_of_followOk rest hr]
    have : -(i.natAbs : Int) = i := by omega
    rw [this]
    rfl
  · have hnn : 0 ≤ i := by omega
    have : intChars i = natChars i.toNat := by
      unfold intChars; rw [if_neg hneg]
    rw [this]
    obtain ⟨hne, hdig, _, _⟩ := natChars_spec i.toNat
    cases hcs : natChars i.toNat with
    | nil => exact absurd hcs hne
    | cons c cs =>
      rw [List.cons_append]
      have hcdig : isDigitCh c = true := hdig c (by rw [hcs]; simp)
      have hcm : c ≠ '-' := by
        intro hcc
        rw [hcc] at hcdig
        simp [isDigitCh] at hcdig
      have hred : parseNumber (c :: (cs ++ rest)) =
          if c = '-' then
            match parseUIntPart (cs ++ rest) with
            | some (n, r) => if floatFollows r then none else some (-(n : Int), r)
            | none => none
          else
            match parseUIntPart (c :: (cs ++ rest)) with
            | some (n, r) => if floatFollows r then none else some ((n : Int), r)
            | none => none := rfl
      rw [hred, if_neg hcm]
      have : c :: (cs ++ rest) = natChars i.toNat ++ rest := by rw [hcs]; rfl
      rw [this, parseUIntPart_natChars i.toNat rest hr]
      show (if floatFollows rest then none else some ((i.toNat : Int), rest)) = some (i, rest)
      rw [floatFollows_of_followOk rest hr]
      have : (i.toNat : Int) = i := by omega
      rw [this]
      rfl

/-! ## Parser unfolding lemmas and dispatch facts -/

theorem parseValue_unfold (fuel : Nat) (cs : List Char) :
    parseValue (fuel + 1) cs =
      match cs.dropWhile jsonWs with
      | [] => none
      | c :: rest =>
        if c = '"' then (parseStringAux rest).map (fun p => (.str (String.mk p.1), p.2))
        else if c = '[' then
          match rest.dropWhile jsonWs with
          | c2 :: r2 =>
            if c2 = ']' then some (.arr [], r2)
            else (parseElems fuel rest).map (fun p => (.arr p.1, p.2))
          | [] => (parseElems fuel rest).map (fun p => (.arr p.1, p.2))
        else if c = '{' then
          match rest.dropWhile jsonWs with
          | c2 :: r2 =>
            if c2 = '}' then some (.obj [], r2)
            else (parseMembers fuel rest).map (fun p => (.obj p.1, p.2))
          | [] => (parseMembers fuel rest).map (fun p => (.obj p.1, p.2))
        else if c = 't' then
          match rest with
          | c1 :: c2 :: c3 :: r =>
            if c1 = 'r' ∧ c2 = 'u' ∧ c3 = 'e' then some (.bool true, r) else none
          | _ => none
        else if c = 'f' then
          match rest with
          | c1 :: c2 :: c3 :: c4 :: r =>
            if c1 = 'a' ∧ c2 = 'l' ∧ c3 = 's' ∧ c4 = 'e' then some (.bool false, r) else none
          | _ => none
        else if c = 'n' then
          match rest with
          | c1 :: c2 :: c3 :: r =>
            if c1 = 'u' ∧ c2 = 'l' ∧ c3 = 'l' then some (.null, r) else none
          | _ => none
        else (parseNumber (c :: rest)).map (fun p => (.int p.1, p.2)) := rfl

theorem parseElems_unfold (fuel : Nat) (cs : List Char) :
    parseElems (fuel + 1) cs =
      match parseValue fuel cs with
      | none => none
      | some (v, r) =>
        match r.dropWhile jsonWs with
        | c :: r2 =>
          if c = ',' then (parseElems fuel r2).map (fun p => (v :: p.1, p.2))
          else if c = ']' then some ([v], r2)
          else none
        | [] => none := rfl

theorem parseMembers_unfold (fuel : Nat) (cs : List Char) :
    parseMembers (fuel + 1) cs =
      match cs.dropWhile jsonWs with
      | c0 :: r1 =>
        if c0 = '"' then
          match parseStringAux r1 with
          | none => none
          | some (k, r2) =>
            match r2.dropWhile jsonWs with
            | c1 :: r3 =>
              if c1 = ':' then
                match parseValue fuel r3 with
                | none => none
                | some (v, r4) =>
                  match r4.dropWhile jsonWs with
                  | c2 :: r5 =>
                    if c2 = ',' then
                      (parseMembers fuel r5).map (fun p => ((String.mk k, v) :: p.1, p.2))
                    else if c2 = '}' then some ([(String.mk k, v)], r5)
                    else none
                  | [] => none
              else none
            | [] => none
        else none
      | [] => none := rfl

theorem char_toNat_ne {c d : Char} (h : c.toNat ≠ d.toNat) : c ≠ d :=
  fun hc => h (by rw [hc])

theorem jsonWs_eq_false {c : Char} (h : c.toNat ≠ 32 ∧ c.toNat ≠ 9 ∧ c.toNat ≠ 10 ∧
    c.toNat ≠ 13) : jsonWs c = false := by
  have u1 : c ≠ ' ' := char_toNat_ne h.1
  have u2 : c ≠ '\t' := char_toNat_ne h.2.1
  have u3 : c ≠ '\n' := char_toNat_ne h.2.2.1
  have u4 : c ≠ '\r' := char_toNat_ne h.2.2.2
  simp [jsonWs, u1, u2, u3, u4]

/-- Facts about the first character of a serialized number that the value
scanner's dispatch needs. -/
theorem numHead_facts {c : Char} (h : isDigitCh c = true ∨ c = '-') :
    jsonWs c = false ∧ c ≠ '"' ∧ c ≠ '[' ∧ c ≠ '{' ∧ c ≠ 't' ∧ c ≠ 'f' ∧ c ≠ 'n' ∧
      c ≠ ']' ∧ c ≠ '}' := by
  have hb : c.toNat = 45 ∨ (48 ≤ c.toNat ∧ c.toNat ≤ 57) := by
    rcases h with h | h
    · simp only [isDigitCh, Bool.and_eq_true, decide_eq_true_eq] at h
      exact .inr h
    · subst h; exact .inl rfl
  refine ⟨jsonWs_eq_false ⟨by omega, by omega, by omega, by omega⟩,
    char_toNat_ne (by show c.toNat ≠ 34; omega),
    char_toNat_ne (by show c.toNat ≠ 91; omega),
    char_toNat_ne (by show c.toNat ≠ 123; omega),
    char_toNat_ne (by show c.toNat ≠ 116; omega),
    char_toNat_ne (by show c.toNat ≠ 102; omega),
    char_toNat_ne (by show c.toNat ≠ 110; omega),
    char_toNat_ne (by show c.toNat ≠ 93; omega),
    char_toNat_ne (by show c.toNat ≠ 125; omega)⟩

/-- The head of a serialized integer is a digit or the minus sign. -/
theorem intChars_head (i : Int) :
    ∃ c cs, intChars i = c :: cs ∧ (isDigitCh c = true ∨ c = '-') := by
  by_cases hneg : i < 0
  · exact ⟨'-', natChars i.natAbs, by unfold intChars; rw [if_pos hneg], .inr rfl⟩
  · have : intChars i = natChars i.toNat := by unfold intChars; rw [if_neg hneg]
    obtain ⟨hne, hdig, -, -⟩ := natChars_spec i.toNat
    cases hcs : natChars i.toNat with
    | nil => exact absurd hcs hne
    | cons c cs =>
      exact ⟨c, cs, by rw [this, hcs], .inl (hdig c (by rw [hcs]; simp))⟩

theorem jneed_pos (j : Json) : 1 ≤ jneed j := by
  cases j with
  | arr l => cases l <;> simp [jneed]
  | obj l => cases l <;> simp [jneed]
  | _ => simp [jneed]

theorem dumpElems_cons (e : Json) (es : List Json) :
    dumpElems (e :: es) = dumpChars e ++ dumpElemsTail es := by
  simp [dumpElems]

theorem dumpElemsTail_cons (e : Json) (es : List Json) :
    dumpElemsTail (e :: es) = ',' :: ' ' :: dumpElems (e :: es) := by
  simp [dumpElemsTail, dumpElems]

theorem dumpMembers_cons (k : String) (v : Json) (ms : List (String × Json)) :
    dumpMembers ((k, v) :: ms) =
      '"' :: (escapeList k.data ++ '"' :: ':' :: ' ' :: (dumpChars v ++ dumpMembersTail ms)) := by
  simp [dumpMembers]

theorem dumpMembersTail_cons (k : String) (v : Json) (ms : List (String × Json)) :
    dumpMembersTail ((k, v) :: ms) = ',' :: ' ' :: dumpMembers ((k, v) :: ms) := by
  simp [dumpMembersTail, dumpMembers]

/-- The first character of any serialized value: never whitespace, never a
closing bracket. -/
theorem dumpChars_head (j : Json) :
    ∃ c z, dumpChars j = c :: z ∧ jsonWs c = false ∧ c ≠ ']' ∧ c ≠ '}' := by
  cases j with
  | str s => exact ⟨'"', escapeList s.data ++ ['"'], by simp [dumpChars], by decide,
      by decide, by decide⟩
  | int i =>
    obtain ⟨c, cs, hc, hd⟩ := intChars_head i
    obtain ⟨hws, -, -, -, -, -, -, hne1, hne2⟩ := numHead_facts hd
    exact ⟨c, cs, by simp [dumpChars, hc], hws, hne1, hne2⟩
  | bool b =>
    cases b with
    | true => exact ⟨'t', ['r', 'u', 'e'], by simp [dumpChars], by decide, by decide, by decide⟩
    | false =>
      exact ⟨'f', ['a', 'l', 's', 'e'], by simp [dumpChars], by decide, by decide, by decide⟩
  | null => exact ⟨'n', ['u', 'l', 'l'], by simp [dumpChars], by decide, by decide, by decide⟩
  | arr l => exact ⟨'[', dumpElems l ++ [']'], by simp [dumpChars], by decide,
      by decide, by decide⟩
  | obj l => exact ⟨'{', dumpMembers l ++ ['}'], by simp [dumpChars], by decide,
      by decide, by decide⟩

theorem followOk_rb (rest : List Char) : followOk (']' :: rest) :=
  ⟨by decide, by decide, by decide, by decide⟩

theorem followOk_cb (rest : List Char) : followOk ('}' :: rest) :=
  ⟨by decide, by decide, by decide, by decide⟩

theorem followOk_comma (rest : List Char) : followOk (',' :: rest) :=
  ⟨by decide, by decide, by decide, by decide⟩

theorem ws_space : ∀ c ∈ ([' '] : List Char), jsonWs c = true := by
  intro c hc
  simp only [List.mem_singleton] at hc
  subst hc
  decide

mutual
/-- The value scanner inverts `json.dumps`: parsing the serialization of a
value, after any whitespace and followed by any remainder a number cannot
absorb, returns that value and the remainder. -/
theorem parse_dump : ∀ (fuel : Nat) (j : Json) (pre rest : List Char),
    jneed j ≤ fuel → (∀ c ∈ pre, jsonWs c = true) → followOk rest →
    parseValue fuel (pre ++ (dumpChars j ++ rest)) = some (j, rest)
  | 0, j, pre, rest => by
    intro hj _ _
    exact absurd hj (by have := jneed_pos j; omega)
  | fuel + 1, j, pre, rest => by
    intro hj hpre hrest
    rw [parseValue_unfold, dropWhile_append_all _ pre _ hpre]
    cases j with
    | str s =>
      have hd : dumpChars (.str s) ++ rest = '"' :: (escapeList s.data ++ ('"' :: rest)) := by
        simp [dumpChars]
      rw [hd, List.dropWhile_cons, if_neg (by decide)]
      dsimp only
      rw [if_pos rfl, parseString_escape s.data rest]
      rfl
    | int i =>
      obtain ⟨c, cs, hc, hdd⟩ := intChars_head i
      obtain ⟨hws, hq, hlb, hob, ht, hf, hn, -, -⟩ := numHead_facts hdd
      have hd : dumpChars (.int i) ++ rest = c :: (cs ++ rest) := by
        simp [dumpChars, hc]
      rw [hd, List.dropWhile_cons, if_neg (by simp [hws])]
      dsimp only
      rw [if_neg hq, if_neg hlb, if_neg hob, if_neg ht, if_neg hf, if_neg hn]
      have hback : c :: (cs ++ rest) = intChars i ++ rest := by rw [hc, List.cons_append]
      rw [hback, parseNumber_intChars i rest hrest]
      rfl
    | bool b =>
      cases b with
      | true =>
        have hd : dumpChars (.bool true) ++ rest = 't' :: 'r' :: 'u' :: 'e' :: rest := by
          simp [dumpChars]
        rw [hd, List.dropWhile_cons, if_neg (by decide)]
        dsimp only
        rw [if_neg (by decide), if_neg (by decide), if_neg (by decide), if_pos rfl]
        rw [if_pos ⟨rfl, rfl, rfl⟩]
      | false =>
        have hd : dumpChars (.bool false) ++ rest =
            'f' :: 'a' :: 'l' :: 's' :: 'e' :: rest := by
          simp [dumpChars]
        rw [hd, List.dropWhile_cons, if_neg (by decide)]
        dsimp only
        rw [if_neg (by decide), if_neg (by decide), if_neg (by decide), if_neg (by decide),
          if_pos rfl]
        rw [if_pos ⟨rfl, rfl, rfl, rfl⟩]
    | null =>
      have hd : dumpChars .null ++ rest = 'n' :: 'u' :: 'l' :: 'l' :: rest := by
        simp [dumpChars]
      rw [hd, List.dropWhile_cons, if_neg (by decide)]
      dsimp only
      rw [if_neg (by decide), if_neg (by decide), if_neg (by decide), if_neg (by decide),
        if_neg (by decide), if_pos rfl]
      rw [if_pos ⟨rfl, rfl, rfl⟩]
    | arr l =>
      cases l with
      | nil =>
        have hd : dumpChars (.arr []) ++ rest = '[' :: (']' :: rest) := by
          simp [dumpChars, dumpElems]
        rw [hd, List.dropWhile_cons, if_neg (by decide)]
        dsimp only
        rw [if_neg (by decide), if_pos rfl, List.dropWhile_cons, if_neg (by decide)]
        dsimp only
        rw [if_pos rfl]
      | cons e es =>
        have hjE : jneedElems (e :: es) ≤ fuel := by
          have h2 : jneed (Json.arr (e :: es)) = 1 + jneedElems (e :: es) := by simp [jneed]
          omega
        obtain ⟨c0, z, hc0, hws0, hne1, hne2⟩ := dumpChars_head e
        have hd : dumpChars (.arr (e :: es)) ++ rest =
            '[' :: (dumpElems (e :: es) ++ (']' :: rest)) := by
          simp [dumpChars]
        rw [hd, List.dropWhile_cons, if_neg (by decide)]
        dsimp only
        rw [if_neg (by decide), if_pos rfl]
        have hsc : (dumpElems (e :: es) ++ (']' :: rest)).dropWhile jsonWs =
            c0 :: (z ++ (dumpElemsTail es ++ (']' :: rest))) := by
          rw [dumpElems_cons, hc0]
          simp [List.dropWhile_cons, hws0, List.append_assoc]
        rw [hsc]
        dsimp only
        rw [if_neg hne1]
        have hel := parseElems_dump fuel (e :: es) [] rest (by simp) hjE (by simp)
        rw [List.nil_append] at hel
        rw [hel]
        rfl
    | obj l =>
      cases l with
      | nil =>
        have hd : dumpChars (.obj []) ++ rest = '{' :: ('}' :: rest) := by
          simp [dumpChars, dumpMembers]
        rw [hd, List.dropWhile_cons, if_neg (by decide)]
        dsimp only
        rw [if_neg (by decide), if_neg (by decide), if_pos rfl, List.dropWhile_cons,
          if_neg (by decide)]
        dsimp only
        rw [if_pos rfl]
      | cons m ms =>
        obtain ⟨k, v⟩ := m
        have hjM : jneedMembers ((k, v) :: ms) ≤ fuel := by
          have h2 : jneed (Json.obj ((k, v) :: ms)) = 1 + jneedMembers ((k, v) :: ms) := by
            simp [jneed]
          omega
        have hd : dumpChars (.obj ((k, v) :: ms)) ++ rest =
            '{' :: (dumpMembers ((k, v) :: ms) ++ ('}' :: rest)) := by
          simp [dumpChars]
        rw [hd, List.dropWhile_cons, if_neg (by decide)]
        dsimp only
        rw [if_neg (by decide), if_neg (by decide), if_pos rfl]
        have hsc : (dumpMembers ((k, v) :: ms) ++ ('}' :: rest)).dropWhile jsonWs =
            '"' :: ((escapeList k.data ++
              '"' :: ':' :: ' ' :: (dumpChars v ++ dumpMembersTail ms)) ++ ('}' :: rest)) := by
          rw [dumpMembers_cons, List.cons_append, List.dropWhile_cons, if_neg (by decide)]
        rw [hsc]
        dsimp only
        rw [if_neg (by decide)]
        have hm := parseMembers_dump fuel ((k, v) :: ms) [] rest (by simp) hjM (by simp)
        rw [List.nil_append] at hm
        rw [hm]
        rfl

/-- The element scanner inverts `json.dumps` on a nonempty serialized element
list followed by the closing bracket. -/
theorem parseElems_dump : ∀ (fuel : Nat) (l : List Json) (pre rest : List Char),
    l ≠ [] → jneedElems l ≤ fuel → (∀ c ∈ pre, jsonWs c = true) →
    parseElems fuel (pre ++ (dumpElems l ++ (']' :: rest))) = some (l, rest)
  | 0, l, pre, rest => by
    intro hne hl _
    cases l with
    | nil => exact absurd rfl hne
    | cons e es => simp [jneedElems] at hl
  | fuel + 1, l, pre, rest => by
    intro hne hl hpre
    cases l with
    | nil => exact absurd rfl hne
    | cons e es =>
      have hmax : max (jneed e) (jneedElems es) ≤ fuel := by
        have h2 : jneedElems (e :: es) = 1 + max (jneed e) (jneedElems es) := by
          simp [jneedElems]
        omega
      have hje : jneed e ≤ fuel := le_trans (le_max_left _ _) hmax
      have hjes : jneedElems es ≤ fuel := le_trans (le_max_right _ _) hmax
      rw [parseElems_unfold]
      have hfirst : pre ++ (dumpElems (e :: es) ++ (']' :: rest)) =
          pre ++ (dumpChars e ++ (dumpElemsTail es ++ (']' :: rest))) := by
        rw [dumpElems_cons, List.append_assoc]
      rw [hfirst]
      cases es with
      | nil =>
        have htail : dumpElemsTail ([] : List Json) = [] := by simp [dumpElemsTail]
        rw [htail, List.nil_append]
        rw [parse_dump fuel e pre (']' :: rest) hje hpre (followOk_rb rest)]
        dsimp only
        rw [List.dropWhile_cons, if_neg (by decide)]
        dsimp only
        rw [if_neg (by decide), if_pos rfl]
      | cons e2 es2 =>
        rw [dumpElemsTail_cons, List.cons_append, List.cons_append]
        rw [parse_dump fuel e pre
          (',' :: (' ' :: (dumpElems (e2 :: es2) ++ (']' :: rest)))) hje hpre
          (followOk_comma _)]
        dsimp only
        rw [List.dropWhile_cons, if_neg (by decide)]
        dsimp only
        rw [if_pos rfl]
        have hrec := parseElems_dump fuel (e2 :: es2) [' '] rest (by simp) hjes ws_space
        rw [List.singleton_append] at hrec
        rw [hrec]
        rfl

/-- The member scanner inverts `json.dumps` on a nonempty serialized member
list followed by the closing brace. -/
theorem parseMembers_dump : ∀ (fuel : Nat) (l : List (String × Json)) (pre rest : List Char),
    l ≠ [] → jneedMembers l ≤ fuel → (∀ c ∈ pre, jsonWs c = true) →
    parseMembers fuel (pre ++ (dumpMembers l ++ ('}' :: rest))) = some (l, rest)
  | 0, l, pre, rest => by
    intro hne hl _
    cases l with
    | nil => exact absurd rfl hne
    | cons m ms =>
      obtain ⟨k, v⟩ := m
      simp [jneedMembers] at hl
  | fuel + 1, l, pre, rest => by
    intro hne hl hpre
    cases l with
    | nil => exact absurd rfl hne
    | cons m ms =>
      obtain ⟨k, v⟩ := m
      have hmax : max (jneed v) (jneedMembers ms) ≤ fuel := by
        have h2 : jneedMembers ((k, v) :: ms) = 1 + max (jneed v) (jneedMembers ms) := by
          simp [jneedMembers]
        omega
      have hjv : jneed v ≤ fuel := le_trans (le_max_left _ _) hmax
      have hjms : jneedMembers ms ≤ fuel := le_trans (le_max_right _ _) hmax
      rw [parseMembers_unfold, dropWhile_append_all _ pre _ hpre]
      have hd : dumpMembers ((k, v) :: ms) ++ ('}' :: rest) =
          '"' :: (escapeList k.data ++
            '"' :: ':' :: ' ' :: (dumpChars v ++ (dumpMembersTail ms ++ ('}' :: rest)))) := by
        rw [dumpMembers_cons]
        simp [List.append_assoc]
      rw [hd, List.dropWhile_cons, if_neg (by decide)]
      dsimp only
      rw [if_pos rfl, parseString_escape k.data
        (':' :: ' ' :: (dumpChars v ++ (dumpMembersTail ms ++ ('}' :: rest))))]
      dsimp only
      rw [List.dropWhile_cons, if_neg (by decide)]
      dsimp only
      rw [if_pos rfl]
      have hsp : (' ' :: (dumpChars v ++ (dumpMembersTail ms ++ ('}' :: rest)))) =
          [' '] ++ (dumpChars v ++ (dumpMembersTail ms ++ ('}' :: rest))) := rfl
      cases ms with
      | nil =>
        have htail : dumpMembersTail ([] : List (String × Json)) = [] := by
          simp [dumpMembersTail]
        rw [htail, List.nil_append] at hsp ⊢
        rw [hsp, parse_dump fuel v [' '] ('}' :: rest) hjv ws_space (followOk_cb rest)]
        dsimp only
        rw [List.dropWhile_cons, if_neg (by decide)]
        dsimp only
        rw [if_neg (by decide), if_pos rfl]
      | cons m2 ms2 =>
        rw [dumpMembersTail_cons, List.cons_append, List.cons_append] at hsp ⊢
        rw [hsp, parse_dump fuel v [' ']
          (',' :: (' ' :: (dumpMembers (m2 :: ms2) ++ ('}' :: rest)))) hjv ws_space
          (followOk_comma _)]
        dsimp only
        rw [List.dropWhile_cons, if_neg (by decide)]
        dsimp only
        rw [if_pos rfl]
        have hrec := parseMembers_dump fuel (m2 :: ms2) [' '] rest (by simp) hjms ws_space
        rw [List.singleton_append] at hrec
        rw [hrec]
        rfl
end

/-! ## Fuel bounds: the input length is sufficient fuel for `loadsChars` -/

mutual
theorem jneed_le_dump : ∀ j : Json, jneed j ≤ (dumpChars j).length
  | .str s => by
    have : dumpChars (.str s) = '"' :: (escapeList s.data ++ ['"']) := by simp [dumpChars]
    simp [jneed, this]
  | .int i => by
    obtain ⟨c, cs, hc, -⟩ := intChars_head i
    have : dumpChars (.int i) = c :: cs := by simp [dumpChars, hc]
    simp [jneed, this]
  | .bool b => by
    cases b <;> simp [jneed, dumpChars]
  | .null => by simp [jneed, dumpChars]
  | .arr [] => by simp [jneed, dumpChars, dumpElems]
  | .arr (e :: es) => by
    have hB := jneedElems_le_dump (e :: es)
    have h1 : jneed (Json.arr (e :: es)) = 1 + jneedElems (e :: es) := by simp [jneed]
    have h2 : dumpChars (.arr (e :: es)) = '[' :: (dumpElems (e :: es) ++ [']']) := by
      simp [dumpChars]
    rw [h1, h2]
    simp only [List.length_cons, List.length_append]
    omega
  | .obj [] => by simp [jneed, dumpChars, dumpMembers]
  | .obj (m :: ms) => by
    have hC := jneedMembers_le_dump (m :: ms)
    have h1 : jneed (Json.obj (m :: ms)) = 1 + jneedMembers (m :: ms) := by simp [jneed]
    have h2 : dumpChars (.obj (m :: ms)) = '{' :: (dumpMembers (m :: ms) ++ ['}']) := by
      simp [dumpChars]
    rw [h1, h2]
    simp only [List.length_cons, List.length_append]
    omega

theorem jneedElems_le_dump : ∀ l : List Json, jneedElems l ≤ (dumpElems l).length + 1
  | [] => by simp [jneedElems, dumpElems]
  | e :: es => by
    have hA := jneed_le_dump e
    have h1 : jneedElems (e :: es) = 1 + max (jneed e) (jneedElems es) := by simp [jneedElems]
    cases es with
    | nil =>
      have h2 : dumpElems [e] = dumpChars e := by simp [dumpElems, dumpElemsTail]
      have hmax : max (jneed e) (jneedElems []) ≤ (dumpChars e).length := by
        refine Nat.max_le.mpr ⟨hA, ?_⟩
        simp [jneedElems]
      rw [h1, h2]
      omega
    | cons e2 es2 =>
      have hB := jneedElems_le_dump (e2 :: es2)
      have h2 : dumpElems (e :: e2 :: es2) =
          dumpChars e ++ (',' :: ' ' :: dumpElems (e2 :: es2)) := by
        rw [dumpElems_cons, dumpElemsTail_cons]
      have hmax : max (jneed e) (jneedElems (e2 :: es2)) ≤
          (dumpChars e).length + (dumpElems (e2 :: es2)).length + 2 :=
        Nat.max_le.mpr ⟨by omega, by omega⟩
      rw [h1, h2]
      simp only [List.length_append, List.length_cons]
      omega

theorem jneedMembers_le_dump :
    ∀ l : List (String × Json), jneedMembers l ≤ (dumpMembers l).length + 1
  | [] => by simp [jneedMembers, dumpMembers]
  | (k, v) :: ms => by
    have hA := jneed_le_dump v
    have h1 : jneedMembers ((k, v) :: ms) = 1 + max (jneed v) (jneedMembers ms) := by
      simp [jneedMembers]
    cases ms with
    | nil =>
      have h2 : dumpMembers [(k, v)] =
          '"' :: (escapeList k.data ++ '"' :: ':' :: ' ' :: (dumpChars v ++ [])) := by
        rw [dumpMembers_cons]
        simp [dumpMembersTail]
      have hmax : max (jneed v) (jneedMembers ([] : List (String × Json))) ≤
          (dumpChars v).length := by
        refine Nat.max_le.mpr ⟨hA, ?_⟩
        simp [jneedMembers]
      rw [h1, h2]
      simp only [List.length_cons, List.length_append, List.length_nil]
      omega
    | cons m2 ms2 =>
      have hC := jneedMembers_le_dump (m2 :: ms2)
      have h2 : dumpMembers ((k, v) :: m2 :: ms2) =
          '"' :: (escapeList k.data ++
            '"' :: ':' :: ' ' :: (dumpChars v ++ (',' :: ' ' :: dumpMembers (m2 :: ms2)))) := by
        rw [dumpMembers_cons, dumpMembersTail_cons]
      have hmax : max (jneed v) (jneedMembers (m2 :: ms2)) ≤
          (dumpChars v).length + (dumpMembers (m2 :: ms2)).length + 2 :=
        Nat.max_le.mpr ⟨by omega, by omega⟩
      rw [h1, h2]
      simp only [List.length_cons, List.length_append]
      omega
end

/-- `json.loads` inverts `json.dumps`. -/
theorem loads_dump (j : Json) : loadsChars (dumpChars j) = some j := by
  unfold loadsChars
  have hfuel : jneed j ≤ (dumpChars j).length + 1 :=
    le_trans (jneed_le_dump j) (by omega)
  have h := parse_dump ((dumpChars j).length + 1) j [] [] hfuel (by simp) trivial
  rw [List.nil_append, List.append_nil] at h
  rw [h]
  rfl

/-! ## No newline inside a serialized record -/

theorem hexDigitChar_ne_nl (d : Nat) (h : d < 16) : hexDigitChar d ≠ '\n' := by
  interval_cases d <;> decide


theorem escapeChar_no_nl (c : Char) : ∀ x ∈ escapeChar c, x ≠ '\n' := by
  intro x hx
  unfold escapeChar at hx
  split_ifs at hx with h1 h2 h3 h4 h5 h6 h7 h8 h9
  · simp at hx; rcases hx with rfl | rfl <;> decide
  · simp at hx; rcases hx with rfl | rfl <;> decide
  · simp at hx; rcases hx with rfl | rfl <;> decide
  · simp at hx; rcases hx with rfl | rfl <;> decide
  · simp at hx; rcases hx with rfl | rfl <;> decide
  · simp at hx; rcases hx with rfl | rfl <;> decide
  · simp at hx; rcases hx with rfl | rfl <;> decide
  · simp at hx
    subst hx
    apply char_toNat_ne
    have h10 : ('\n' : Char).toNat = 10 := rfl
    omega
  · simp [toHex4] at hx
    rcases hx with rfl | rfl | rfl | rfl | rfl | rfl
    · decide
    · decide
    · exact hexDigitChar_ne_nl _ (by omega)
    · exact hexDigitChar_ne_nl _ (by omega)
    · exact hexDigitChar_ne_nl _ (by omega)
    · exact hexDigitChar_ne_nl _ (by omega)
  · rcases List.mem_append.mp hx with h | h <;>
      · simp [toHex4] at h
        rcases h with h | h | h | h | h | h <;> rw [h]
        · decide
        · decide
        · exact hexDigitChar_ne_nl _ (by omega)
        · exact hexDigitChar_ne_nl _ (by omega)
        · exact hexDigitChar_ne_nl _ (by omega)
        · exact hexDigitChar_ne_nl _ (by omega)

theorem escapeList_no_nl (s : List Char) : ∀ x ∈ escapeList s, x ≠ '\n' := by
  induction s with
  | nil => simp [escapeList]
  | cons c t ih =>
    intro x hx
    rw [escapeList_cons] at hx
    rcases List.mem_append.mp hx with h | h
    · exact escapeChar_no_nl c x h
    · exact ih x h

theorem intChars_no_nl (i : Int) : ∀ x ∈ intChars i, x ≠ '\n' := by
  intro x hx
  obtain ⟨-, hdig, -, -⟩ := natChars_spec i.natAbs
  obtain ⟨-, hdig2, -, -⟩ := natChars_spec i.toNat
  unfold intChars at hx
  split_ifs at hx with h1
  · rcases List.mem_cons.mp hx with rfl | h
    · decide
    · have := hdig x h
      simp only [isDigitCh, Bool.and_eq_true, decide_eq_true_eq] at this
      exact char_toNat_ne (show x.toNat ≠ 10 by omega)
  · have := hdig2 x hx
    simp only [isDigitCh, Bool.and_eq_true, decide_eq_true_eq] at this
    exact char_toNat_ne (show x.toNat ≠ 10 by omega)

mutual
theorem dumpChars_no_nl : ∀ (j : Json), ∀ x ∈ dumpChars j, x ≠ '\n'
  | .str s => by
    have hd : dumpChars (.str s) = '"' :: (escapeList s.data ++ ['"']) := by simp [dumpChars]
    rw [hd]
    intro x hx
    rcases List.mem_cons.mp hx with rfl | h
    · decide
    · rcases List.mem_append.mp h with h | h
      · exact escapeList_no_nl s.data x h
      · simp at h; subst h; decide
  | .int i => by
    have hd : dumpChars (.int i) = intChars i := by simp [dumpChars]
    rw [hd]
    exact intChars_no_nl i
  | .bool b => by
    cases b with
    | true =>
      have hd : dumpChars (.bool true) = ['t', 'r', 'u', 'e'] := by simp [dumpChars]
      rw [hd]
      intro x hx
      simp at hx
      rcases hx with rfl | rfl | rfl | rfl <;> decide
    | false =>
      have hd : dumpChars (.bool false) = ['f', 'a', 'l', 's', 'e'] := by simp [dumpChars]
      rw [hd]
      intro x hx
      simp at hx
      rcases hx with rfl | rfl | rfl | rfl | rfl <;> decide
  | .null => by
    have hd : dumpChars .null = ['n', 'u', 'l', 'l'] := by simp [dumpChars]
    rw [hd]
    intro x hx
    simp at hx
    rcases hx with rfl | rfl | rfl | rfl <;> decide
  | .arr l => by
    have hd : dumpChars (.arr l) = '[' :: (dumpElems l ++ [']']) := by simp [dumpChars]
    rw [hd]
    intro x hx
    rcases List.mem_cons.mp hx with rfl | h
    · decide
    · rcases List.mem_append.mp h with h | h
      · exact dumpElems_no_nl l x h
      · simp at h; subst h; decide
  | .obj l => by
    have hd : dumpChars (.obj l) = '{' :: (dumpMembers l ++ ['}']) := by simp [dumpChars]
    rw [hd]
    intro x hx
    rcases List.mem_cons.mp hx with rfl | h
    · decide
    · rcases List.mem_append.mp h with h | h
      · exact dumpMembers_no_nl l x h
      · simp at h; subst h; decide

theorem dumpElems_no_nl : ∀ (l : List Json), ∀ x ∈ dumpElems l, x ≠ '\n'
  | [] => by simp [dumpElems]
  | e :: es => by
    intro x hx
    rw [dumpElems_cons] at hx
    rcases List.mem_append.mp hx with h | h
    · exact dumpChars_no_nl e x h
    · cases es with
      | nil => simp [dumpElemsTail] at h
      | cons e2 es2 =>
        rw [dumpElemsTail_cons] at h
        rcases List.mem_cons.mp h with rfl | h
        · decide
        · rcases List.mem_cons.mp h with rfl | h
          · decide
          · exact dumpElems_no_nl (e2 :: es2) x h

theorem dumpMembers_no_nl : ∀ (l : List (String × Json)), ∀ x ∈ dumpMembers l, x ≠ '\n'
  | [] => by simp [dumpMembers]
  | (k, v) :: ms => by
    intro x hx
    rw [dumpMembers_cons] at hx
    rcases List.mem_cons.mp hx with rfl | h
    · decide
    · rcases List.mem_append.mp h with h | h
      · exact escapeList_no_nl k.data x h
      · rcases List.mem_cons.mp h with rfl | h
        · decide
        · rcases List.mem_cons.mp h with rfl | h
          · decide
          · rcases List.mem_cons.mp h with rfl | h
            · decide
            · rcases List.mem_append.mp h with h | h
              · exact dumpChars_no_nl v x h
              · cases ms with
                | nil => simp [dumpMembersTail] at h
                | cons m2 ms2 =>
                  rw [dumpMembersTail_cons] at h
                  rcases List.mem_cons.mp h with rfl | h
                  · decide
                  · rcases List.mem_cons.mp h with rfl | h
                    · decide
                    · exact dumpMembers_no_nl (m2 :: ms2) x h
end

/-! ## The newline-framing layer -/

theorem splitNl_cons (c : Char) (t : List Char) :
    splitNl (c :: t) =
      if c = '\n' then [] :: splitNl t
      else (c :: (splitNl t).headD []) :: (splitNl t).tail := rfl

theorem splitNl_no_nl (cs : List Char) (h : ∀ x ∈ cs, x ≠ '\n') : splitNl cs = [cs] := by
  induction cs with
  | nil => rfl
  | cons c t ih =>
    rw [splitNl_cons, if_neg (h c (by simp)), ih (fun x hx => h x (by simp [hx]))]
    rfl

theorem pyStrip_record (L : List (String × Json)) :
    pyStrip (dumpChars (.obj L) ++ ['\n']) = dumpChars (.obj L) := by
  have hd : dumpChars (.obj L) = '{' :: (dumpMembers L ++ ['}']) := by simp [dumpChars]
  rw [hd]
  unfold pyStrip
  rw [List.cons_append, List.dropWhile_cons, if_neg (by decide)]
  rw [List.reverse_cons, List.reverse_append, List.reverse_append]
  simp only [List.reverse_cons, List.reverse_nil, List.nil_append, List.append_assoc,
    List.singleton_append, List.cons_append]
  rw [List.dropWhile_cons, if_pos (by decide), List.dropWhile_cons, if_neg (by decide)]
  simp [List.reverse_cons, List.reverse_append]

theorem receive_response_record (L : List (String × Json)) :
    FTPClient.receive_response (encodeMessage (.obj L)) = some (.obj L) := by
  unfold FTPClient.receive_response encodeMessage
  rw [utf8_decode_encode]
  dsimp only
  rw [pyStrip_record L, splitNl_no_nl _ (dumpChars_no_nl (.obj L))]
  have hne : dumpChars (.obj L) = '{' :: (dumpMembers L ++ ['}']) := by simp [dumpChars]
  have hemp : (dumpChars (.obj L)).isEmpty = false := by rw [hne]; rfl
  dsimp only [List.filter]
  rw [hemp]
  simp only [Bool.not_false]
  rw [loads_dump (.obj L)]

/-! ## Command-line parsing lemmas -/

theorem dropWhile_head_not {α : Type} (p : α → Bool) :
    ∀ (l : List α) (c : α) (t : List α), l.dropWhile p = c :: t → p c = false := by
  intro l
  induction l with
  | nil => intro c t h; simp at h
  | cons a l ih =>
    intro c t h
    rw [List.dropWhile_cons] at h
    by_cases hp : p a = true
    · rw [if_pos hp] at h
      exact ih c t h
    · rw [if_neg hp] at h
      cases h
      simpa using hp

theorem dropWhile_append_ne {α : Type} (p : α → Bool) (xs ys : List α)
    (h : xs.dropWhile p ≠ []) :
    (xs ++ ys).dropWhile p = xs.dropWhile p ++ ys := by
  induction xs with
  | nil => simp at h
  | cons a t ih =>
    rw [List.cons_append, List.dropWhile_cons, List.dropWhile_cons]
    by_cases hp : p a = true
    · rw [if_pos hp, if_pos hp]
      rw [List.dropWhile_cons, if_pos hp] at h
      exact ih h
    · rw [if_neg hp, if_neg hp, List.cons_append]

/-- The right-strip half of `pyStrip`. -/
def stripRight (cs : List Char) : List Char :=
  (cs.reverse.dropWhile isPySpace).reverse

theorem pyStrip_eq (cs : List Char) :
    pyStrip cs = stripRight (cs.dropWhile isPySpace) := rfl

theorem takeWhile_stripRight (l : List Char) :
    (stripRight l).takeWhile notPySpace = l.takeWhile notPySpace := by
  have hsplit : l.reverse.takeWhile isPySpace ++ l.reverse.dropWhile isPySpace = l.reverse :=
    List.takeWhile_append_dropWhile _ _
  have hl : l = stripRight l ++ (l.reverse.takeWhile isPySpace).reverse := by
    have := congrArg List.reverse hsplit
    rw [List.reverse_append, List.reverse_reverse] at this
    exact this.symm
  have hws : ∀ x ∈ (l.reverse.takeWhile isPySpace).reverse, notPySpace x = false := by
    intro x hx
    rw [List.mem_reverse] at hx
    have := mem_takeWhile_sat isPySpace l.reverse x hx
    simp [notPySpace, this]
  calc (stripRight l).takeWhile notPySpace
      = (stripRight l ++ (l.reverse.takeWhile isPySpace).reverse).takeWhile notPySpace :=
        (takeWhile_append_none _ _ _ hws).symm
    _ = l.takeWhile notPySpace := by rw [← hl]

theorem stripRight_head (l : List Char) (c : Char) (t : List Char)
    (hl : l = c :: t) (hc : isPySpace c = false) :
    (stripRight l).dropWhile isPySpace = stripRight l := by
  cases hsr : stripRight l with
  | nil => rfl
  | cons a y =>
    have hmem : a ∈ l := by
      have hpre : stripRight l ++ (l.reverse.takeWhile isPySpace).reverse = l := by
        have hsplit : l.reverse.takeWhile isPySpace ++ l.reverse.dropWhile isPySpace =
            l.reverse := List.takeWhile_append_dropWhile _ _
        have := congrArg List.reverse hsplit
        rw [List.reverse_append, List.reverse_reverse] at this
        exact this
      rw [← hpre, hsr]
      simp
    rcases hfirst : l with _ | ⟨c', t'⟩
    · rw [hfirst] at hl; cases hl
    · have hhead : a = c := by
        have hpre : stripRight l ++ (l.reverse.takeWhile isPySpace).reverse = l := by
          have hsplit : l.reverse.takeWhile isPySpace ++ l.reverse.dropWhile isPySpace =
              l.reverse := List.takeWhile_append_dropWhile _ _
          have := congrArg List.reverse hsplit
          rw [List.reverse_append, List.reverse_reverse] at this
          exact this
        rw [hsr] at hpre
        rw [hl] at hpre
        rw [List.cons_append] at hpre
        exact (List.cons.inj hpre).1
      rw [List.dropWhile_cons, if_neg (by rw [hhead, hc]; simp)]

theorem stripRight_append_token (v rest : List Char) (hv : tokenLike v) (hne : v ≠ []) :
    stripRight (v ++ rest) = v ++ stripRight rest := by
  unfold stripRight
  rw [List.reverse_append]
  have hvrev : v.reverse.dropWhile isPySpace = v.reverse := by
    cases hvr : v.reverse with
    | nil => rfl
    | cons a y =>
      have ha : a ∈ v := by
        rw [← List.mem_reverse, hvr]
        simp
      rw [List.dropWhile_cons, if_neg (by simp [hv a ha])]
  by_cases hz : rest.reverse.dropWhile isPySpace = []
  · have hall : ∀ x ∈ rest.reverse, isPySpace x = true := by
      intro x hx
      exact List.dropWhile_eq_nil_iff.mp hz x hx
    rw [dropWhile_append_all _ _ _ hall, hvrev, List.reverse_reverse, hz]
    simp
  · rw [dropWhile_append_ne _ _ _ hz, List.reverse_append, List.reverse_reverse]

theorem parse_verb_firstTok (line : List Char) :
    (CommandParser.parse line).1 = (firstTok line).map pyUpperChar := by
  unfold CommandParser.parse splitFirstTok firstTok
  rw [pyStrip_eq]
  simp only []
  congr 1
  cases hd : line.dropWhile isPySpace with
  | nil => simp [stripRight]
  | cons c t =>
    have hc : isPySpace c = false := dropWhile_head_not _ line c t hd
    rw [stripRight_head (c :: t) c t rfl hc]
    exact takeWhile_stripRight (c :: t)

theorem parse_token_append (v rest : List Char) (hv : tokenLike v) (hne : v ≠ []) :
    CommandParser.parse (v ++ rest) =
      ((v.map pyUpperChar) ++ ((stripRight rest).takeWhile notPySpace).map pyUpperChar,
        ((stripRight rest).dropWhile notPySpace).dropWhile isPySpace) := by
  obtain ⟨a, t, hvat⟩ : ∃ a t, v = a :: t := by
    cases v with
    | nil => exact absurd rfl hne
    | cons a t => exact ⟨a, t, rfl⟩
  have hha : isPySpace a = false := hv a (by rw [hvat]; simp)
  unfold CommandParser.parse splitFirstTok
  rw [pyStrip_eq]
  have h1 : (v ++ rest).dropWhile isPySpace = v ++ rest := by
    rw [hvat, List.cons_append, List.dropWhile_cons, if_neg (by simp [hha])]
  rw [h1, stripRight_append_token v rest hv hne]
  have h2 : (v ++ stripRight rest).dropWhile isPySpace = v ++ stripRight rest := by
    rw [hvat, List.cons_append, List.dropWhile_cons, if_neg (by simp [hha])]
  simp only []
  rw [h2]
  rw [takeWhile_append_all notPySpace v _ (fun x hx => by simp [notPySpace, hv x hx])]
  rw [dropWhile_append_all notPySpace v _ (fun x hx => by simp [notPySpace, hv x hx])]
  simp [List.map_append]

/-! ## Remaining helper lemmas -/

theorem FS.lookupFile_setFile (fs : FS) (p : List String) (bs : List Nat) :
    (fs.setFile p bs).lookupFile p = some bs := by
  unfold FS.setFile FS.lookupFile
  simp [List.find?_cons]

theorem receive_chunksFrom (ps : List (List Nat)) :
    ∀ (k : Nat) (acc : List Nat) (rest : List Frame),
      receive_file_chunked none k acc (chunksFrom k ps ++ rest) =
        receive_file_chunked none (k + ps.length) (acc ++ ps.join) rest := by
  induction ps with
  | nil =>
    intro k acc rest
    simp [chunksFrom]
  | cons p ps ih =>
    intro k acc rest
    have hck : chunksFrom k (p :: ps) = .chunk k p :: chunksFrom (k + 1) ps := rfl
    rw [hck, List.cons_append]
    have hred : receive_file_chunked none k acc
        (Frame.chunk k p :: (chunksFrom (k + 1) ps ++ rest)) =
        if k = k then
          receive_file_chunked none (k + 1) (acc ++ p) (chunksFrom (k + 1) ps ++ rest)
        else .violation acc := rfl
    rw [hred, if_pos rfl, ih (k + 1) (acc ++ p) rest]
    simp only [List.join_cons, List.append_assoc, List.length_cons]
    congr 1
    omega

theorem count_ten_utf8EncodeChar (c : Char) (h : c ≠ '\n') :
    (utf8EncodeChar c).count 10 = 0 := by
  have hten : c.toNat ≠ 10 := by
    intro hc
    exact h (by rw [← Char.ofNat_toNat c, hc])
  unfold utf8EncodeChar
  dsimp only
  split_ifs with h1 h2 h3
  · simp only [List.count_cons, List.count_nil]
    have hne : ¬ ((10 : Nat) == c.toNat) = true := by
      simp only [beq_iff_eq]
      omega
    simp [hne, hten]
  · refine List.count_eq_zero.mpr ?_
    intro hmem
    simp only [List.mem_cons, List.not_mem_nil, or_false] at hmem
    rcases hmem with h | h <;> omega
  · refine List.count_eq_zero.mpr ?_
    intro hmem
    simp only [List.mem_cons, List.not_mem_nil, or_false] at hmem
    rcases hmem with h | h | h <;> omega
  · refine List.count_eq_zero.mpr ?_
    intro hmem
    simp only [List.mem_cons, List.not_mem_nil, or_false] at hmem
    rcases hmem with h | h | h | h <;> omega

theorem count_ten_utf8EncodeList (cs : List Char) (h : ∀ x ∈ cs, x ≠ '\n') :
    (utf8EncodeList cs).count 10 = 0 := by
  induction cs with
  | nil => rfl
  | cons c t ih =>
    have hstep : utf8EncodeList (c :: t) = utf8EncodeChar c ++ utf8EncodeList t := rfl
    rw [hstep, List.count_append, count_ten_utf8EncodeChar c (h c (by simp)),
      ih (fun x hx => h x (by simp [hx]))]

/-! ## Claim C1: path containment -/

/-- C1, counterexample: the file store performs no containment check.  With
the working directory `["srv"]` (data root `["srv", "server_data"]`) and a
filesystem holding `/etc/passwd`, the name `"../../etc/passwd"` escapes the
root yet `read_file` returns that file's bytes with success, and the name
`"../evil"` escapes the root yet `write_file` reports success and creates
`/srv/evil` — contradicting the claim that both fail with `InvalidName` and
perform no I/O. -/
theorem c1_counterexample :
    escapesRoot ["srv"] "../../etc/passwd" = true ∧
    escapesRoot ["srv"] "../evil" = true ∧
    FileTransferHandler.read_file (dataRoot ["srv"])
      ⟨[(["etc", "passwd"], [42, 43])], []⟩ "../../etc/passwd" 8192 = (true, [42, 43]) ∧
    (FileTransferHandler.write_file (dataRoot ["srv"])
      ⟨[(["etc", "passwd"], [42, 43])], []⟩ "../evil" [1, 2]).2 =
      (true, "File ../evil saved successfully") ∧
    (FileTransferHandler.write_file (dataRoot ["srv"])
      ⟨[(["etc", "passwd"], [42, 43])], []⟩ "../evil" [1, 2]).1.lookupFile
      ["srv", "evil"] = some [1, 2] := by
  refine ⟨by decide, by decide, by decide, by decide, by decide⟩

/-- C1, amended: the file store resolves every name against the data root
with no containment check and performs the I/O at the resolved path, even
when it escapes the root: `write_file` stores the bytes there and reports
success for every name, and `read_file` returns the bytes stored there
whenever a small enough file is present; no `InvalidName` failure exists in
the code. -/
theorem c1_no_containment_check (cwd : List String) (fs : FS) (name : String)
    (content bytes : List Nat)
    (hb : fs.lookupFile (resolvePath (dataRoot cwd) name) = some bytes)
    (hlen : bytes.length ≤ 8192) :
    FileTransferHandler.write_file (dataRoot cwd) fs name content =
      (fs.setFile (resolvePath (dataRoot cwd) name) content,
        (true, "File " ++ name ++ " saved successfully")) ∧
    FileTransferHandler.read_file (dataRoot cwd) fs name 8192 = (true, bytes) := by
  constructor
  · rfl
  · unfold FileTransferHandler.read_file
    simp only [hb]
    rw [if_neg (by omega)]

/-- C1, witness for the amended theorem at a concrete escaping name. -/
theorem c1_no_containment_check_witness :
    (FS.lookupFile ⟨[(["etc", "passwd"], [7])], []⟩
        (resolvePath (dataRoot ["srv"]) "../../etc/passwd") = some [7] ∧
      ([7] : List Nat).length ≤ 8192) ∧
    (FileTransferHandler.write_file (dataRoot ["srv"]) ⟨[(["etc", "passwd"], [7])], []⟩
        "../../etc/passwd" [1] =
      (FS.setFile ⟨[(["etc", "passwd"], [7])], []⟩
        (resolvePath (dataRoot ["srv"]) "../../etc/passwd") [1],
        (true, "File ../../etc/passwd saved successfully")) ∧
      FileTransferHandler.read_file (dataRoot ["srv"]) ⟨[(["etc", "passwd"], [7])], []⟩
        "../../etc/passwd" 8192 = (true, [7])) :=
  ⟨⟨by decide, by decide⟩,
    c1_no_containment_check ["srv"] ⟨[(["etc", "passwd"], [7])], []⟩
      "../../etc/passwd" [1] [7] (by decide) (by decide)⟩

/-! ## Claim C2: atomic write -/

/-- C2, counterexample: the upload write is not write-then-rename.  With a
prior file `[1, 2, 3]` under the target name, a write of `[9, 9, 9, 9]`
interrupted after 2 bytes leaves the file `[9, 9]` visible under the target
name: a file is visible there and the previously existing file was not left
unchanged, contradicting the claim. -/
theorem c2_counterexample :
    (write_file_interrupted (dataRoot ["srv"])
        ⟨[(["srv", "server_data", "f.txt"], [1, 2, 3])], []⟩
        "f.txt" [9, 9, 9, 9] 2).lookupFile ["srv", "server_data", "f.txt"] =
      some [9, 9] ∧
    some [9, 9] ≠ some [1, 2, 3] ∧ (some [9, 9] : Option (List Nat)) ≠ none := by
  refine ⟨by decide, by decide, by decide⟩

/-- C2, amended: the upload write goes directly to the target name — the
file is opened with truncation and the bytes are written in place, with no
temporary name and no rename — so a write of `content` interrupted after `k`
bytes leaves a file holding exactly the first `k` bytes of the new content
visible under the target name (any prior content is lost). -/
theorem c2_direct_write (cwd : List String) (fs : FS) (name : String)
    (content : List Nat) (k : Nat) :
    (write_file_interrupted (dataRoot cwd) fs name content k).lookupFile
      (resolvePath (dataRoot cwd) name) = some (content.take k) := by
  unfold write_file_interrupted pyAppendBytes pyOpenTruncate
  rw [FS.lookupFile_setFile]
  rw [FS.lookupFile_setFile]
  rfl

/-! ## Claim C3: encode/decode round trip -/

/-- C3: for every message the server's serializer can produce — any status,
any message text, and any data payload whose keys are distinct (as the keys
of a Python dict always are) — the client's line-splitting JSON decoder
applied to the encoded byte sequence returns exactly that message. -/
theorem c3_encode_decode_roundtrip (status message : String)
    (data : List (String × Json)) (hnd : (data.map Prod.fst).Nodup) :
    FTPClient.receive_response
        (encodeMessage (FTPProtocol.create_response status message data)) =
      some (FTPProtocol.create_response status message data) :=
  receive_response_record _

/-- C3, witness at a concrete message with a data payload. -/
theorem c3_encode_decode_roundtrip_witness :
    ((([("filename", Json.str "a.txt"), ("size", Json.int 5)] :
        List (String × Json)).map Prod.fst).Nodup) ∧
    FTPClient.receive_response
        (encodeMessage (FTPProtocol.create_response "OK" "Sending a.txt"
          [("filename", Json.str "a.txt"), ("size", Json.int 5)])) =
      some (FTPProtocol.create_response "OK" "Sending a.txt"
        [("filename", Json.str "a.txt"), ("size", Json.int 5)]) :=
  ⟨by decide,
    c3_encode_decode_roundtrip "OK" "Sending a.txt"
      [("filename", Json.str "a.txt"), ("size", Json.int 5)] (by decide)⟩

/-! ## Claim C4: command grammar -/

/-- C4, counterexample: `validate` accepts `"CD"`, which is not in the
claimed grammar, so the claimed equivalence is false. -/
theorem c4_counterexample :
    CommandParser.validate "CD" = true ∧
    ("CD" : String) ∉ (["LS", "GET", "PUT", "EXIT", "HELP"] : List String) := by
  refine ⟨by decide, by decide⟩

/-- C4, amended: `validate(v)` returns true exactly when `v` is a member of
`VALID_COMMANDS`, the nine-verb list `LS, GET, PUT, EXIT, HELP, CD, PWD,
MKDIR, DELETE`. -/
theorem c4_validate_amended (v : String) :
    CommandParser.validate v = true ↔ v ∈ CommandParser.VALID_COMMANDS :=
  List.elem_iff

/-! ## Claim C5: chunk ordering (spec-modelled receive path) -/

/-- C5: the receive-path accumulator fed chunks indexed `0, 1, ..., n`
followed by `FILE_END` reconstructs exactly the concatenation of the
payloads in index order; fed a chunk whose index is not the expected next
index after a contiguous prefix, it raises `ProtocolViolation` while the
accumulator still holds only the prefix's bytes — the bad chunk's payload is
not appended. -/
theorem c5_chunk_accumulator (ps : List (List Nat)) (i : Nat) (b : List Nat)
    (rest : List Frame) :
    receive_file_chunked none 0 [] (chunksFrom 0 ps ++ [Frame.fileEnd]) =
      .ok ps.join ∧
    (i ≠ ps.length →
      receive_file_chunked none 0 [] (chunksFrom 0 ps ++ Frame.chunk i b :: rest) =
        .violation ps.join) := by
  constructor
  · rw [receive_chunksFrom ps 0 [] [Frame.fileEnd], List.nil_append]
    rfl
  · intro hi
    rw [receive_chunksFrom ps 0 [] (Frame.chunk i b :: rest), List.nil_append]
    have hred : receive_file_chunked none (0 + ps.length) ps.join
        (Frame.chunk i b :: rest) =
        if i = 0 + ps.length then
          receive_file_chunked none (0 + ps.length + 1) (ps.join ++ b) rest
        else .violation ps.join := rfl
    rw [hred, if_neg (by omega)]

/-- C5, witness: payloads `[1]` and `[2]` under indices 0 and 1 reassemble
to `[1, 2]`; a third chunk with index 3 instead of 2 is rejected with the
accumulator still `[1, 2]`. -/
theorem c5_chunk_accumulator_witness :
    receive_file_chunked none 0 [] (chunksFrom 0 [[1], [2]] ++ [Frame.fileEnd]) =
      .ok [1, 2] ∧
    receive_file_chunked none 0 []
        (chunksFrom 0 [[1], [2]] ++ Frame.chunk 3 [9] :: []) = .violation [1, 2] :=
  ⟨(c5_chunk_accumulator [[1], [2]] 3 [9] []).1,
    (c5_chunk_accumulator [[1], [2]] 3 [9] []).2 (by decide)⟩

/-! ## Claim C6: GET-without-argument error -/

/-- C6: the claimed behavior never occurs, because `handle_client` calls
methods on the method-less `LoggingHandler` stub.  Every session raises
AttributeError at `logger.log_connection` (main.py line 53, before the
`try` block) and terminates having sent nothing, so no session reaches
command dispatch and the GET-requires-filename error is never sent; the
dispatch code itself, were it reached, would answer
`"GET requires filename"`, which moreover differs from the claimed
`"GET requires a filename"`. -/
theorem c6_get_error_never_sent (cwd : List String) (fs : FS)
    (recvs : List (List Nat)) :
    handle_client_session cwd fs recvs = ([], SessEnd.crashedBeforeTry, fs) ∧
    dispatchLogged cwd fs "GET" "" [] =
      ([⟨"ERROR", "GET requires filename", []⟩], StepEnd.continueLoop, fs) ∧
    ("GET requires filename" : String) ≠ "GET requires a filename" :=
  ⟨rfl, rfl, by decide⟩

/-! ## Claim C7: GET of a missing file -/

/-- C7: false of the program — the File-not-found error is never sent.  Even
at the dispatch point with the file absent, `logger.log_error` (main.py line
157) raises AttributeError on the method-less `LoggingHandler` stub before
the ERROR response is built at line 158; the exception is caught at line 232
and the session closes instead of remaining in the command loop.  In fact
the session dies even earlier, at `logger.log_connection` (line 53), before
sending anything at all. -/
theorem c7_not_found_never_sent (cwd : List String) (fs : FS) (name : String)
    (putRecv : List Nat) (hname : ¬ name = "")
    (habsent : fs.lookupFile (resolvePath (dataRoot cwd) name) = none) :
    dispatchLogged cwd fs "GET" name putRecv = ([], StepEnd.exceptionCaught, fs) ∧
    handle_client_session cwd fs [strBytes ("GET " ++ name)] =
      ([], SessEnd.crashedBeforeTry, fs) := by
  constructor
  · unfold dispatchLogged
    simp only [habsent]
    rw [if_pos trivial, if_neg hname, if_neg (by decide), if_neg (by decide)]
    rfl
  · rfl

/-- C7, witness at a concrete missing file. -/
theorem c7_not_found_never_sent_witness :
    (¬ ("missing.txt" : String) = "" ∧
      FS.lookupFile ⟨[], [["server_data"]]⟩
        (resolvePath (dataRoot []) "missing.txt") = none) ∧
    (dispatchLogged [] ⟨[], [["server_data"]]⟩ "GET" "missing.txt" [] =
        ([], StepEnd.exceptionCaught, (⟨[], [["server_data"]]⟩ : FS)) ∧
      handle_client_session [] ⟨[], [["server_data"]]⟩
          [strBytes ("GET " ++ "missing.txt")] =
        ([], SessEnd.crashedBeforeTry, (⟨[], [["server_data"]]⟩ : FS))) :=
  ⟨⟨by decide, by decide⟩,
    c7_not_found_never_sent [] ⟨[], [["server_data"]]⟩ "missing.txt" []
      (by decide) (by decide)⟩

/-! ## Claim C8: command-word normalization -/

/-- C8: for ASCII input the parser's command word is the first
whitespace-delimited token of the line uppercased, so two lines differing
only in the case of that first token parse identically: both the extracted
command and the remaining argument agree. -/
theorem c8_case_insensitive_verb (line v₁ v₂ rest : List Char)
    (hline : allAscii line) (ht₁ : tokenLike v₁) (ht₂ : tokenLike v₂)
    (hasc : allAscii (v₁ ++ (v₂ ++ rest)))
    (hcase : v₁.map pyUpperChar = v₂.map pyUpperChar) :
    (CommandParser.parse line).1 = (firstTok line).map pyUpperChar ∧
    CommandParser.parse (v₁ ++ rest) = CommandParser.parse (v₂ ++ rest) := by
  refine ⟨parse_verb_firstTok line, ?_⟩
  rcases v₁ with _ | ⟨c₁, t₁⟩
  · have hv₂ : v₂ = [] := by
      have h := hcase.symm
      simpa using h
    rw [hv₂]
  · rcases v₂ with _ | ⟨c₂, t₂⟩
    · simp at hcase
    · rw [parse_token_append (c₁ :: t₁) rest ht₁ (by intro h; cases h),
        parse_token_append (c₂ :: t₂) rest ht₂ (by intro h; cases h), hcase]

/-- C8, witness: `get` and `GeT` followed by the same remainder parse
identically, and the parsed command of a concrete line is its uppercased
first token. -/
theorem c8_case_insensitive_verb_witness :
    (allAscii ("get a.txt".data) ∧ tokenLike ("get".data) ∧ tokenLike ("GeT".data) ∧
      allAscii ("get".data ++ ("GeT".data ++ " a.txt".data)) ∧
      ("get".data).map pyUpperChar = ("GeT".data).map pyUpperChar) ∧
    ((CommandParser.parse ("get a.txt".data)).1 =
        (firstTok ("get a.txt".data)).map pyUpperChar ∧
      CommandParser.parse ("get".data ++ " a.txt".data) =
        CommandParser.parse ("GeT".data ++ " a.txt".data)) :=
  ⟨⟨by decide, by decide, by decide, by decide, by decide⟩,
    c8_case_insensitive_verb ("get a.txt".data) ("get".data) ("GeT".data)
      (" a.txt".data) (by decide) (by decide) (by decide) (by decide) (by decide)⟩

/-! ## Claim C9: parse_command never raises -/

/-- C9: `parse_command` is total on arbitrary byte input — it always returns
a command/argument pair — and when the bytes are not valid UTF-8 the
exception handler yields the empty command and empty argument. -/
theorem c9_parse_command_total (bs : List Nat) :
    (∃ cmd arg, FTPProtocol.parse_command bs = (cmd, arg)) ∧
    (utf8DecodeList bs = none → FTPProtocol.parse_command bs = ([], [])) := by
  refine ⟨⟨_, _, rfl⟩, fun h => ?_⟩
  unfold FTPProtocol.parse_command
  rw [h]

/-- C9, witness: the lone byte `0xFF` is invalid UTF-8 and parses to the
empty pair. -/
theorem c9_parse_command_total_witness :
    (∃ cmd arg, FTPProtocol.parse_command [255] = (cmd, arg)) ∧
    (utf8DecodeList [255] = none ∧ FTPProtocol.parse_command [255] = ([], [])) :=
  ⟨(c9_parse_command_total [255]).1,
    ⟨by decide, (c9_parse_command_total [255]).2 (by decide)⟩⟩

/-! ## Claim C10: one newline, at the end -/

/-- C10: every encoded server response contains exactly one newline byte
(0x0A), and it is the final byte of the message. -/
theorem c10_single_trailing_newline (status message : String)
    (data : List (String × Json)) :
    (encodeMessage (FTPProtocol.create_response status message data)).count 10 = 1 ∧
    (encodeMessage (FTPProtocol.create_response status message data)).getLast? =
      some 10 := by
  have hE : encodeMessage (FTPProtocol.create_response status message data) =
      utf8EncodeList (dumpChars (FTPProtocol.create_response status message data)) ++
        [10] := by
    unfold encodeMessage
    rw [utf8EncodeList_append]
    rfl
  rw [hE]
  constructor
  · rw [List.count_append,
      count_ten_utf8EncodeList _ (dumpChars_no_nl _)]
    decide
  · rw [List.getLast?_append]
    rfl
